import Mathlib

/-!
Shallow embedding of the Petalog email backend's core reporting logic
(`src/main.py`): timezone / day-boundary helpers, the log-fetch filter,
the `analyze_data` aggregation engine, the multi-location percentage
computation, and the per-owner dispatch loop of `send_reports`.

Conventions of the embedding:
* Monetary amounts are rationals (`Money := Rat`); Python performs true
  division on numbers, which we model exactly over `Rat`.
* Instants are minutes since an arbitrary epoch, as `Int`.  IST wall-clock
  time of a UTC instant `m` is `m + 330` (UTC+05:30).  Python's floor
  division and nonnegative modulo correspond to `/` and `%` on `Int`
  (Euclidean division, which agrees with Python's floor semantics for the
  positive divisors used here).
* A Python `dict` (insertion-ordered, unique keys) is an association list
  `List (String × β)`; inserting a fresh key appends, updating bumps the
  first (hence only) binding, exactly `dict`'s observable behaviour.
* `dict.get(k, d)` is modelled by `Option.getD`: a `none` field means the
  key is absent, so the default applies; `some v` means the key is bound
  to `v` (the empty string is a bound value, not an absent key).
* Python truthiness tests (`if not owner.get('email')`,
  `if log.get('upi_account_name')`) on string-valued fields are modelled
  by mapping every falsy value (absent / `None` / `""`) to `none`.
-/

/-! ## Time helpers (`now_ist`, `ist_day_utc_bounds`, `parse_iso_to_ist`) -/

abbrev Money := Rat

/-- IST is UTC+05:30, i.e. 330 minutes (`IST_TZ = pytz.timezone('Asia/Kolkata')`). -/
def istOffsetMin : Int := 330

/-- Minutes in a day. -/
def minutesPerDay : Int := 1440

/-- `now_ist()`: the current UTC instant rendered in IST wall-clock minutes. -/
def now_ist (nowUtcMin : Int) : Int := nowUtcMin + istOffsetMin

/-- `ist_day_utc_bounds`: given an IST wall-clock datetime (minutes), return the
UTC instants of that IST calendar day's midnight and of midnight + 24h.
Mirrors `src/main.py` lines 71-82: `day = dt_ist.date()` is floor division by
one day; `start_ist = IST_TZ.localize(datetime.combine(day, time(0,0,0)))` is
that day's midnight in IST wall-clock; converting to UTC subtracts 5h30;
`end_ist = start_ist + timedelta(days=1)`. -/
def ist_day_utc_bounds (dtIstMin : Int) : Int × Int :=
  let day := dtIstMin / minutesPerDay
  let startUtc := day * minutesPerDay - istOffsetMin
  (startUtc, startUtc + minutesPerDay)

/-- Result of Python's parsing of a `created_at` value in `parse_iso_to_ist`:
the value is falsy (`None` or `""`), or `datetime.fromisoformat` raises, or it
parses to an aware instant (a naive result is assumed UTC by the code). -/
inductive CreatedAt where
  | empty     : CreatedAt
  | malformed : CreatedAt
  | instVal   : Int → CreatedAt
deriving DecidableEq, Repr

/-- `parse_iso_to_ist` (`src/main.py` lines 84-94): falsy input and parse
failures both fall back to `now_ist()`; otherwise the parsed instant is
converted to IST.  `nowIstMin` is the IST wall-clock time of the run. -/
def parse_iso_to_ist (nowIstMin : Int) : CreatedAt → Int
  | .empty => nowIstMin
  | .malformed => nowIstMin
  | .instVal utcMin => utcMin + istOffsetMin

/-- `.hour` of an IST wall-clock datetime given in minutes. -/
def istHour (istMin : Int) : Nat := (istMin % minutesPerDay).toNat / 60

/-! ## Canonical log record (output of `map_row`) -/

/-- The fields of a mapped log row that the aggregation engine reads.
`Amount` is `none` when the key would be absent (`log.get('Amount', 0)`
then yields 0); `payment_mode`, `service`, `vehicle_type` are `none` when
absent (defaults `'Cash'` / `'Unknown'` / `'Unknown'` apply);
`upi_account_name` is `none` when absent or falsy. -/
structure LogRecord where
  created_at : CreatedAt
  payment_mode : Option String := none
  upi_account_name : Option String := none
  service : Option String := none
  vehicle_type : Option String := none
  Amount : Option Money := none
deriving DecidableEq, Repr

/-- `log.get('Amount', 0)`. -/
def getAmount (r : LogRecord) : Money := r.Amount.getD 0

/-- A row of the `locations` table. -/
structure Location where
  id : String
  name : String
deriving DecidableEq, Repr

/-! ## Fetch filter (`fetch_today_filtered_logs`, lines 245-259)

The upstream query is modelled as a filter over the rows of the logs table;
only the three columns the filter touches are carried.  Timestamp comparison
in the real query is lexicographic on ISO-8601 UTC strings, which agrees with
chronological order, modelled as `Int` minutes.  The subsequent per-row
normalisation (`map_row`) does not affect which rows are selected and is not
claimed, so the embedding returns the selected rows themselves. -/

structure DbRow where
  approval_status : String
  loc_id : Option String
  created_at_utc : Int
deriving DecidableEq, Repr

/-- The filter applied by `fetch_today_filtered_logs`'s query:
`eq('approval_status','approved')`, `eq('loc_id', location_id)` when a
location is given (Python: `if location_id:`, falsy skips the clause), and
`gte(start) … lt(end)` with the bounds of `ist_day_utc_bounds()` at the
current time. -/
def fetchFilter (nowUtcMin : Int) (locationId : Option String) (row : DbRow) : Bool :=
  let bounds := ist_day_utc_bounds (now_ist nowUtcMin)
  row.approval_status == "approved"
    && (match locationId with
        | some l => row.loc_id == some l
        | none => true)
    && bounds.1 ≤ row.created_at_utc
    && row.created_at_utc < bounds.2

/-- `fetch_today_filtered_logs` restricted to its row-selection behaviour. -/
def fetch_today_filtered_logs (nowUtcMin : Int) (locationId : Option String)
    (rows : List DbRow) : List DbRow :=
  rows.filter (fetchFilter nowUtcMin locationId)

/-! ## Group-by accumulators

Python dicts with in-place updates become association lists: a fresh key is
appended (`payment_mode_breakdown[k] = {...}` on a missing key), and the
increments then hit the unique binding of the key. -/

/-- Update the first binding of `key` (a Python dict has exactly one). -/
def bumpFirst (key : String) (f : β → β) : List (String × β) → List (String × β)
  | [] => []
  | (k, g) :: t => if k = key then (k, f g) :: t else (k, g) :: bumpFirst key f t

/-- One loop iteration over a grouping dict: insert a zeroed group if the key
is new (Python appends it at the end), then apply the increments to it. -/
def addToGroups (key : String) (init : β) (f : β → β)
    (acc : List (String × β)) : List (String × β) :=
  if (acc.lookup key).isSome then bumpFirst key f acc
  else bumpFirst key f (acc ++ [(key, init)])

/-! ### Payment mode breakdown (lines 342-382) -/

structure UpiAcct where
  count : Nat
  amount : Money
deriving DecidableEq, Repr

/-- One value of the `payment_mode_breakdown` dict.  The `details` mirror of
`upiAccounts` (updated in lockstep with identical contents) is elided. -/
structure PaymentGroup where
  mode : String
  displayName : String
  count : Nat
  transactions : Nat
  revenue : Money
  percentage : Money
  upiAccounts : List (String × UpiAcct)
deriving DecidableEq, Repr

/-- `log.get('payment_mode', 'Cash')`. -/
def pmMode (r : LogRecord) : String := r.payment_mode.getD "Cash"

/-- Python `str.lower()`: per-character lowercasing, defined over the
character list so that concrete instances compute (the payment-mode strings
this code lowercases are ASCII, where this agrees with Python). -/
def strLower (s : String) : String := String.mk (s.data.map Char.toLower)

/-- `normalized_mode = payment_mode.lower()`. -/
def pmKey (r : LogRecord) : String := strLower (pmMode r)

/-- The zeroed group created on first sight of a key (lines 349-358). -/
def newPaymentGroup (mode : String) : PaymentGroup :=
  { mode := mode, displayName := mode, count := 0, transactions := 0,
    revenue := 0, percentage := 0, upiAccounts := [] }

def bumpUpi (amt : Money) (a : UpiAcct) : UpiAcct :=
  { count := a.count + 1, amount := a.amount + amt }

/-- The increments one record applies to its payment group (lines 360-379):
count/transactions/revenue always; the nested per-UPI-account tallies only
when the normalized key is `"upi"` and `upi_account_name` is truthy. -/
def updPaymentGroup (r : LogRecord) (g : PaymentGroup) : PaymentGroup :=
  let g := { g with count := g.count + 1, transactions := g.transactions + 1,
                    revenue := g.revenue + getAmount r }
  if pmKey r = "upi" then
    match r.upi_account_name with
    | some acct =>
      { g with upiAccounts := addToGroups acct ⟨0, 0⟩ (bumpUpi (getAmount r)) g.upiAccounts }
    | none => g
  else g

def paymentStep (acc : List (String × PaymentGroup)) (r : LogRecord) :
    List (String × PaymentGroup) :=
  addToGroups (pmKey r) (newPaymentGroup (pmMode r)) (updPaymentGroup r) acc

/-- The `payment_mode_breakdown` dict after the grouping loop. -/
def payment_mode_breakdown (logs : List LogRecord) : List (String × PaymentGroup) :=
  logs.foldl paymentStep []

/-- Second pass (lines 381-382): set each group's percentage. -/
def paymentFinal (totalRevenue : Money) (gs : List (String × PaymentGroup)) :
    List PaymentGroup :=
  gs.map fun p =>
    { p.2 with percentage := if 0 < totalRevenue then p.2.revenue / totalRevenue * 100 else 0 }

/-! ### Service breakdown (lines 384-405) -/

structure ServiceGroup where
  service : String
  name : String
  count : Nat
  revenue : Money
  price : Money
  averagePrice : Money
  revenueShare : Money
deriving DecidableEq, Repr

/-- `log.get('service', 'Unknown')`. -/
def svcKey (r : LogRecord) : String := r.service.getD "Unknown"

def newServiceGroup (s : String) : ServiceGroup :=
  { service := s, name := s, count := 0, revenue := 0, price := 0,
    averagePrice := 0, revenueShare := 0 }

/-- Lines 399-402: bump count and revenue, then recompute
`price = revenue / count` (and its `averagePrice` mirror). -/
def updServiceGroup (r : LogRecord) (g : ServiceGroup) : ServiceGroup :=
  let count := g.count + 1
  let revenue := g.revenue + getAmount r
  { g with count := count, revenue := revenue,
           price := revenue / (count : Money), averagePrice := revenue / (count : Money) }

def serviceStep (acc : List (String × ServiceGroup)) (r : LogRecord) :
    List (String × ServiceGroup) :=
  addToGroups (svcKey r) (newServiceGroup (svcKey r)) (updServiceGroup r) acc

def service_breakdown (logs : List LogRecord) : List (String × ServiceGroup) :=
  logs.foldl serviceStep []

/-- Second pass (lines 404-405): set each service's revenue share. -/
def serviceFinal (totalRevenue : Money) (gs : List (String × ServiceGroup)) :
    List ServiceGroup :=
  gs.map fun p =>
    { p.2 with revenueShare := if 0 < totalRevenue then p.2.revenue / totalRevenue * 100 else 0 }

/-! ### Vehicle type distribution (lines 407-420) -/

structure VehicleGroup where
  type : String
  count : Nat
  percentage : Money
deriving DecidableEq, Repr

/-- `log.get('vehicle_type', 'Unknown')`. -/
def vehKey (r : LogRecord) : String := r.vehicle_type.getD "Unknown"

/-- The zeroed group created on first sight of a vehicle type (lines 411-416). -/
def newVehicleGroup (t : String) : VehicleGroup :=
  { type := t, count := 0, percentage := 0 }

/-- Line 417: bump the type's count. -/
def updVehicleGroup (r : LogRecord) (g : VehicleGroup) : VehicleGroup :=
  { g with count := g.count + 1 }

def vehicleStep (acc : List (String × VehicleGroup)) (r : LogRecord) :
    List (String × VehicleGroup) :=
  addToGroups (vehKey r) (newVehicleGroup (vehKey r)) (updVehicleGroup r) acc

def vehicle_distribution (logs : List LogRecord) : List (String × VehicleGroup) :=
  logs.foldl vehicleStep []

/-- Second pass (lines 419-420): percentage of total vehicles. -/
def vehicleFinal (totalVehicles : Nat) (gs : List (String × VehicleGroup)) :
    List VehicleGroup :=
  gs.map fun p =>
    { p.2 with percentage :=
        if 0 < totalVehicles then (p.2.count : Money) / (totalVehicles : Money) * 100 else 0 }

/-! ### Hourly breakdown (lines 422-453) -/

structure HourSlot where
  hour : Nat
  label : String
  period : String
  display : String
  amount : Money
  count : Nat
  transactions : Nat
  revenue : Money
deriving DecidableEq, Repr

/-- `f"{hour_12:02d}"`. -/
def pad2 (n : Nat) : String := if n < 10 then "0" ++ toString n else toString n

/-- One initial slot (lines 424-436): 12-hour label with `i % 12`, 0 mapped
to 12, AM below hour 12, PM from hour 12 on. -/
def mkSlot (i : Nat) : HourSlot :=
  let hour12 := if i % 12 = 0 then 12 else i % 12
  let period := if i < 12 then "AM" else "PM"
  { hour := i, label := pad2 hour12 ++ " " ++ period, period := period,
    display := toString hour12 ++ ":00 " ++ period,
    amount := 0, count := 0, transactions := 0, revenue := 0 }

def initHourly : List HourSlot := (List.range 24).map mkSlot

/-- The hour slot a record accumulates into: `parse_iso_to_ist(created_at).hour`. -/
def hourKey (nowIstMin : Int) (r : LogRecord) : Nat :=
  istHour (parse_iso_to_ist nowIstMin r.created_at)

/-- Lines 441-444: the in-place `+=` updates to the record's slot. -/
def bumpSlot (amt : Money) (s : HourSlot) : HourSlot :=
  { s with amount := s.amount + amt, count := s.count + 1,
           transactions := s.transactions + 1, revenue := s.revenue + amt }

/-- Apply one record to the slot whose `hour` matches (hours are unique, so
this touches exactly the indexed slot `hourly_breakdown[hour]`). -/
def hourlyStep (nowIstMin : Int) (slots : List HourSlot) (r : LogRecord) :
    List HourSlot :=
  slots.map fun s => if s.hour = hourKey nowIstMin r then bumpSlot (getAmount r) s else s

/-- The full 24-slot histogram after the accumulation loop. -/
def hourly_full (nowIstMin : Int) (logs : List LogRecord) : List HourSlot :=
  logs.foldl (hourlyStep nowIstMin) initHourly

/-- Line 453: keep slots with `count > 0 or amount > 0`. -/
def hourly_filtered (nowIstMin : Int) (logs : List LogRecord) : List HourSlot :=
  (hourly_full nowIstMin logs).filter fun s =>
    decide (0 < s.count) || decide ((0 : Money) < s.amount)

/-! ### Peak selection (lines 446-448) -/

/-- Python's `max(xs, key=rev)` on a nonempty list: scan left to right,
replace the champion only on a strictly greater key, so the first maximum
wins ties. -/
def pyMaxFold (rev : α → Money) (x : α) (l : List α) : α :=
  l.foldl (fun acc y => if rev acc < rev y then y else acc) x

/-- `peak_hour = max(hourly_breakdown, key=lambda x: x['revenue'])` over the
full 24-slot list.  The list always has 24 elements; the `[]` branch is the
unreachable case where Python's `max` would raise. -/
def peak_hour (nowIstMin : Int) (logs : List LogRecord) : HourSlot :=
  match hourly_full nowIstMin logs with
  | [] => mkSlot 0
  | x :: xs => pyMaxFold (fun s => s.revenue) x xs

/-- The two fields of `peak_service` that are consumed
(`{'name': 'N/A', 'revenue': 0}` when there are no services). -/
structure PeakService where
  name : String
  revenue : Money
deriving DecidableEq, Repr

/-- `peak_service = max(service_list, key=...) if service_list else {...}`,
where `service_list = list(service_breakdown.values())` after the
revenue-share pass. -/
def peak_service (totalRevenue : Money) (logs : List LogRecord) : PeakService :=
  match serviceFinal totalRevenue (service_breakdown logs) with
  | [] => { name := "N/A", revenue := 0 }
  | x :: xs =>
    let m := pyMaxFold (fun s => s.revenue) x xs
    { name := m.name, revenue := m.revenue }

/-! ### `analyze_data` (lines 332-479) -/

/-- The analysis value.  The Python dict's `payments` / `services` /
`vehicles` / `hourlyData` keys duplicate `paymentModeBreakdown` /
`serviceBreakdown` / `vehicleDistribution` / `hourlyBreakdown` (same list
objects) and are elided; `summary` and `insights` are flattened into the
`summary…` / `insights…` fields actually consumed downstream. -/
structure Analysis where
  totalRevenue : Money
  totalVehicles : Nat
  avgService : Money
  paymentModeBreakdown : List PaymentGroup
  serviceBreakdown : List ServiceGroup
  vehicleDistribution : List VehicleGroup
  hourlyBreakdown : List HourSlot
  summaryPeakHour : String
  summaryPeakHourRevenue : Money
  insightsTopService : String
  insightsTopServiceRevenue : Money
  insightsBusyHours : Nat
deriving DecidableEq, Repr

/-- `analyze_data(logs, locations)`.  `nowIstMin` is the IST wall-clock time
of the run (consulted only by `parse_iso_to_ist` fallbacks); `locations` is
accepted and ignored exactly as in the source. -/
def analyze_data (nowIstMin : Int) (logs : List LogRecord)
    (locations : List Location) : Analysis :=
  let total_revenue := (logs.map getAmount).sum
  let total_vehicles := logs.length
  let avg_service :=
    if 0 < total_vehicles then total_revenue / (total_vehicles : Money) else 0
  let hf := hourly_filtered nowIstMin logs
  let ph := peak_hour nowIstMin logs
  let ps := peak_service total_revenue logs
  { totalRevenue := total_revenue
    totalVehicles := total_vehicles
    avgService := avg_service
    paymentModeBreakdown := paymentFinal total_revenue (payment_mode_breakdown logs)
    serviceBreakdown :=
      (serviceFinal total_revenue (service_breakdown logs)).mergeSort
        (fun a b => decide (b.revenue ≤ a.revenue))
    vehicleDistribution :=
      (vehicleFinal total_vehicles (vehicle_distribution logs)).mergeSort
        (fun a b => decide (b.count ≤ a.count))
    hourlyBreakdown := hf
    summaryPeakHour := ph.display
    summaryPeakHourRevenue := ph.revenue
    insightsTopService := ps.name
    insightsTopServiceRevenue := ps.revenue
    insightsBusyHours := hf.length }

/-! ## Multi-location report percentage (lines 604-626)

`generate_multi_location_report_html` computes, for each location row,
`data['analysis']['totalRevenue'] / total_revenue * 100` where
`total_revenue` is the consolidated sum — with NO zero guard (unlike
`avg_per_location` on line 614 and every percentage in `analyze_data`).
A zero consolidated revenue with at least one location row therefore raises
`ZeroDivisionError`, modelled as `none`. -/

/-- One location row's percent-of-consolidated-revenue; `none` models the
`ZeroDivisionError` raised when the consolidated total is 0. -/
def multiLocPercent (totalRevenue rev : Money) : Option Money :=
  if totalRevenue = 0 then none else some (rev / totalRevenue * 100)

/-- Run a fallible computation over each element, failing if any element
fails (each loop iteration of the comparison table may raise). -/
def optionMapAll (f : Money → Option Money) : List Money → Option (List Money)
  | [] => some []
  | r :: t =>
    match f r, optionMapAll f t with
    | some v, some vs => some (v :: vs)
    | _, _ => none

/-- The percent column of the location comparison table, over the list of the
member analyses' `totalRevenue` values; `none` when any row raises. -/
def multiLocPercents (revs : List Money) : Option (List Money) :=
  optionMapAll (multiLocPercent revs.sum) revs

/-! ## `get_owner_locations` (lines 126-148) -/

/-- The shapes `owner.get('assigned_location')` can take. -/
inductive Assigned where
  | absent : Assigned
  | str    : String → Assigned
  | list   : List String → Assigned
deriving DecidableEq, Repr

/-- Python's `if not assigned:` — falsy values mean "all locations". -/
def assignedFalsy : Assigned → Bool
  | .absent => true
  | .str s => s == ""
  | .list l => l.isEmpty

structure OwnerModel where
  id : String
  email : Option String        -- `none` models a falsy email (absent / None / "")
  assigned_location : Assigned
deriving DecidableEq, Repr

/-- `get_owner_locations`: falsy assignment → all known locations; a list is
returned as-is; a string is split on commas (trimmed) when it contains one,
else taken whole. -/
def get_owner_locations (owner : OwnerModel) (locations : List Location) :
    List String :=
  if assignedFalsy owner.assigned_location then locations.map (fun l => l.id)
  else match owner.assigned_location with
    | .absent => locations.map (fun l => l.id)
    | .list l => l
    | .str s =>
      if s.contains ',' then (s.splitOn ",").map String.trim else [s]

/-! ## Per-owner processing in `send_reports` (lines 1156-1392)

The loop body's external effects are modelled by a per-owner environment:
the fetch outcome at each location (a raised exception or a list of mapped
records) and the outcome of each of the two possible send attempts (the
no-data notification, or the full report whose try-block also covers
analysis/HTML/CSV generation).  Each iteration appends exactly one entry to
`email_results`; the entry shapes below carry the fields the claims are
about. -/

/-- Outcome of `fetch_today_filtered_logs(location_id)` for one location:
either the mapped records or a raised exception (caught at lines 1226-1228,
which merely skips the location). -/
inductive FetchResult where
  | ok  : List LogRecord → FetchResult
  | err : FetchResult
deriving Repr

/-- Outcome of one `send_email_with_attachments_ses` attempt (standing for
the whole surrounding try-block). -/
inductive SendResult where
  | ok : SendResult
  | raised : String → SendResult
deriving DecidableEq, Repr

structure OwnerEnv where
  fetch : String → FetchResult
  sendNoData : SendResult
  sendReport : SendResult

/-- One entry of `email_results`. -/
inductive Outcome where
  | skipped : String → Outcome                       -- status ':skipped', reason
  | success : Nat → Money → String → Outcome         -- recordCount, revenue, emailType
  | failed  : String → Outcome                       -- status 'failed', error message
deriving DecidableEq, Repr

/-- Records fetched for one location, as the loop sees them: an exception or
an empty result contributes nothing (`if len(location_logs) > 0`). -/
def fetchedLogs (env : OwnerEnv) (locId : String) : List LogRecord :=
  match env.fetch locId with
  | .ok logs => logs
  | .err => []

/-- `has_any_data` after the per-location fetch loop (lines 1193-1228): some
location fetched without raising and yielded at least one record. -/
def has_any_data (env : OwnerEnv) (locIds : List String) : Bool :=
  locIds.any fun l => decide (0 < (fetchedLogs env l).length)

/-- Which of the four mutually exclusive branches of the loop body runs for
an owner. -/
inductive OwnerPath where
  | skippedNoEmail : OwnerPath
  | skippedNoLocations : OwnerPath
  | noData : OwnerPath
  | withData : OwnerPath
deriving DecidableEq, Repr

/-- Branch selection of the loop body: no email → skip; no resolvable
locations → skip; `not has_any_data` → the no-data notification (lines
1231-1276); otherwise the full report (lines 1279-1381). -/
def ownerPath (locations : List Location) (owner : OwnerModel) (env : OwnerEnv) :
    OwnerPath :=
  match owner.email with
  | none => .skippedNoEmail
  | some _ =>
    let locIds := get_owner_locations owner locations
    if locIds.isEmpty then .skippedNoLocations
    else if has_any_data env locIds then .withData else .noData

/-- The one `email_results` entry the loop body appends for an owner.  In the
no-data branch a successful send records `recordCount 0, revenue 0,
emailType 'no-data'`; in the data branch it records the owner's total record
count and revenue and the single/multi marker; in either branch a raised
exception is caught and recorded as `failed` with `str(e)`. -/
def processOwner (locations : List Location) (owner : OwnerModel) (env : OwnerEnv) :
    Outcome :=
  match ownerPath locations owner env with
  | .skippedNoEmail => .skipped "No email address"
  | .skippedNoLocations => .skipped "No locations assigned"
  | .noData =>
    match env.sendNoData with
    | .ok => .success 0 0 "no-data"
    | .raised msg => .failed msg
  | .withData =>
    let locIds := get_owner_locations owner locations
    let contributing := locIds.filter fun l => decide (0 < (fetchedLogs env l).length)
    let allLogs := locIds.flatMap (fetchedLogs env)
    let totalRevenue := (contributing.map fun l =>
      ((fetchedLogs env l).map getAmount).sum).sum
    match env.sendReport with
    | .ok => .success allLogs.length totalRevenue
        (if 1 < locIds.length then "multi-location" else "single-location")
    | .raised msg => .failed msg

/-- The run's aggregate response (`jsonify` at lines 1428-1449): reached, with
`success: True`, whenever the per-owner loop completes — individual owner
failures only show up in the counters and `results`. -/
structure RunResponse where
  success : Bool
  emailsSent : Nat
  emailsFailed : Nat
  emailsSkipped : Nat
  totalOwners : Nat
  results : List Outcome
deriving Repr

def isSuccessOutcome : Outcome → Bool
  | .success _ _ _ => true
  | _ => false

def isFailedOutcome : Outcome → Bool
  | .failed _ => true
  | _ => false

def isSkippedOutcome : Outcome → Bool
  | .skipped _ => true
  | _ => false

/-- The owner-processing portion of `send_reports`: one outcome per owner in
order, counters tallied from the outcomes, and the HTTP 200 `success: True`
response returned after the loop regardless of per-owner failures. -/
def send_reports (locations : List Location)
    (owners : List (OwnerModel × OwnerEnv)) : RunResponse :=
  let results := owners.map fun p => processOwner locations p.1 p.2
  { success := true
    emailsSent := results.countP isSuccessOutcome
    emailsFailed := results.countP isFailedOutcome
    emailsSkipped := results.countP isSkippedOutcome
    totalOwners := owners.length
    results := results }

/-! ## Lemma kit for the dict embedding -/

theorem lookup_append_single_self (key : String) (v : β) :
    ∀ l : List (String × β), ((l ++ [(key, v)]).lookup key).isSome := by
  intro l
  induction l with
  | nil => simp [List.lookup]
  | cons p t ih =>
    by_cases h : key == p.1
    · simp [List.lookup, h]
    · simpa [List.lookup, h] using ih

theorem sum_map_bumpFirst {M : Type*} [AddCommMonoid M] (proj : β → M) (key : String)
    (f : β → β) (c : M) (hf : ∀ g, proj (f g) = proj g + c) :
    ∀ l : List (String × β), (l.lookup key).isSome →
      ((bumpFirst key f l).map (fun p => proj p.2)).sum
        = (l.map (fun p => proj p.2)).sum + c := by
  intro l
  induction l with
  | nil => simp [List.lookup]
  | cons p t ih =>
    intro hl
    by_cases h : p.1 = key
    · simp only [bumpFirst, if_pos h, List.map_cons, List.sum_cons, hf]
      abel
    · have hk : ¬(key == p.1) = true := by
        simp only [beq_iff_eq]
        exact fun e => h e.symm
      have ht : (t.lookup key).isSome := by
        simpa [List.lookup, hk] using hl
      simp only [bumpFirst, if_neg h, List.map_cons, List.sum_cons, ih ht]
      abel

theorem sum_map_addToGroups {M : Type*} [AddCommMonoid M] (proj : β → M) (key : String)
    (init : β) (f : β → β) (c : M) (hf : ∀ g, proj (f g) = proj g + c)
    (hinit : proj init = 0) (l : List (String × β)) :
    ((addToGroups key init f l).map (fun p => proj p.2)).sum
      = (l.map (fun p => proj p.2)).sum + c := by
  unfold addToGroups
  by_cases h : (l.lookup key).isSome
  · rw [if_pos h]
    exact sum_map_bumpFirst proj key f c hf l h
  · rw [if_neg h]
    rw [sum_map_bumpFirst proj key f c hf _ (lookup_append_single_self key init l)]
    simp [hinit]

theorem sum_map_foldl_groups {α : Type*} {M : Type*} [AddCommMonoid M] (proj : β → M)
    (key : α → String) (init : α → β) (f : α → β → β) (c : α → M)
    (hf : ∀ r g, proj (f r g) = proj g + c r) (hinit : ∀ r, proj (init r) = 0) :
    ∀ (logs : List α) (acc : List (String × β)),
      ((logs.foldl (fun a r => addToGroups (key r) (init r) (f r) a) acc).map
          (fun p => proj p.2)).sum
        = (acc.map (fun p => proj p.2)).sum + (logs.map c).sum := by
  intro logs
  induction logs with
  | nil => simp
  | cons r t ih =>
    intro acc
    simp only [List.foldl_cons, List.map_cons, List.sum_cons]
    rw [ih, sum_map_addToGroups proj _ _ _ _ (hf r) (hinit r)]
    abel

theorem lookup_bumpFirst_self (key : String) (f : β → β) :
    ∀ l : List (String × β), (bumpFirst key f l).lookup key = (l.lookup key).map f := by
  intro l
  induction l with
  | nil => simp [bumpFirst, List.lookup]
  | cons p t ih =>
    by_cases h : p.1 = key
    · simp [bumpFirst, h, List.lookup]
    · have hk : ¬(key == p.1) = true := by
        simp only [beq_iff_eq]
        exact fun e => h e.symm
      simp [bumpFirst, h, List.lookup, hk, ih]

theorem lookup_bumpFirst_ne (key k : String) (f : β → β) (hne : k ≠ key) :
    ∀ l : List (String × β), (bumpFirst key f l).lookup k = l.lookup k := by
  intro l
  have hkk : (k == key) = false := by simp [hne]
  induction l with
  | nil => simp [bumpFirst]
  | cons p t ih =>
    by_cases h : p.1 = key
    · simp [bumpFirst, h, List.lookup, hkk]
    · by_cases h2 : k == p.1
      · simp [bumpFirst, h, List.lookup, h2]
      · simp [bumpFirst, h, List.lookup, h2, ih]

theorem lookup_append_single_of_none (key : String) (v : β)
    (l : List (String × β)) (h : l.lookup key = none) :
    (l ++ [(key, v)]).lookup key = some v := by
  induction l with
  | nil => simp [List.lookup]
  | cons p t ih =>
    by_cases hk : key == p.1
    · simp [List.lookup, hk] at h
    · simp only [List.lookup, hk] at h
      simpa [List.lookup, hk] using ih h

theorem lookup_append_single_ne (key k : String) (v : β) (hne : k ≠ key)
    (l : List (String × β)) :
    ((l ++ [(key, v)]).lookup k) = l.lookup k := by
  have hkk : (k == key) = false := by simp [hne]
  induction l with
  | nil => simp [List.lookup, hkk]
  | cons p t ih =>
    by_cases hk : k == p.1
    · simp [List.lookup, hk]
    · simpa [List.lookup, hk] using ih

theorem lookup_addToGroups_self (key : String) (init : β) (f : β → β)
    (l : List (String × β)) :
    (addToGroups key init f l).lookup key = some (f ((l.lookup key).getD init)) := by
  unfold addToGroups
  by_cases h : (l.lookup key).isSome
  · rw [if_pos h, lookup_bumpFirst_self]
    obtain ⟨g, hg⟩ := Option.isSome_iff_exists.mp h
    simp [hg]
  · have hn : l.lookup key = none := Option.not_isSome_iff_eq_none.mp h
    rw [if_neg h, lookup_bumpFirst_self, lookup_append_single_of_none key init l hn]
    simp [hn]

theorem lookup_addToGroups_ne (key k : String) (init : β) (f : β → β)
    (hne : k ≠ key) (l : List (String × β)) :
    (addToGroups key init f l).lookup k = l.lookup k := by
  unfold addToGroups
  by_cases h : (l.lookup key).isSome
  · rw [if_pos h, lookup_bumpFirst_ne key k f hne]
  · rw [if_neg h, lookup_bumpFirst_ne key k f hne, lookup_append_single_ne key k init hne]

theorem lookup_foldl_groups {α : Type*} (key : α → String) (init : α → β)
    (f : α → β → β) :
    ∀ (logs : List α) (acc : List (String × β)) (k : String),
      (logs.foldl (fun a r => addToGroups (key r) (init r) (f r) a) acc).lookup k
        = (logs.filter (fun r => key r == k)).foldl
            (fun g r => some (f r (g.getD (init r)))) (acc.lookup k) := by
  intro logs
  induction logs with
  | nil => intro acc k; simp
  | cons r t ih =>
    intro acc k
    by_cases h : key r = k
    · have hb : (key r == k) = true := by simpa [beq_iff_eq] using h
      subst h
      simp only [List.foldl_cons, List.filter_cons, hb, if_true]
      rw [ih, lookup_addToGroups_self]
    · have hb : (key r == k) = false := by simpa [beq_iff_eq] using h
      simp only [List.foldl_cons, List.filter_cons, hb, Bool.false_eq_true,
        if_false]
      rw [ih, lookup_addToGroups_ne (key r) k _ _ (fun e => h e.symm)]

/-- The per-key meaning of the grouping loop: the group of a key is the fold
of the per-record update over the records carrying that key, seeded from the
zero group created for the first such record. -/
def groupFold {α : Type*} (init : α → β) (f : α → β → β) : List α → Option β
  | [] => none
  | r0 :: rest => some (rest.foldl (fun g r => f r g) (f r0 (init r0)))

theorem foldl_option_some {α : Type*} (init : α → β) (f : α → β → β) :
    ∀ (rest : List α) (x : β),
      rest.foldl (fun g r => some (f r (g.getD (init r)))) (some x)
        = some (rest.foldl (fun g r => f r g) x) := by
  intro rest
  induction rest with
  | nil => intro x; rfl
  | cons r t ih => intro x; simp only [List.foldl_cons, Option.getD_some, ih]

theorem foldl_option_none_eq_groupFold {α : Type*} (init : α → β) (f : α → β → β) :
    ∀ rs : List α,
      rs.foldl (fun g r => some (f r (g.getD (init r)))) none = groupFold init f rs := by
  intro rs
  cases rs with
  | nil => rfl
  | cons r0 rest =>
    simp only [groupFold, List.foldl_cons, Option.getD_none]
    exact foldl_option_some init f rest (f r0 (init r0))

/-! ## Field behaviour of the per-record updates -/

theorem updPaymentGroup_revenue (r : LogRecord) (g : PaymentGroup) :
    (updPaymentGroup r g).revenue = g.revenue + getAmount r := by
  unfold updPaymentGroup
  split
  · cases r.upi_account_name <;> rfl
  · rfl

theorem updPaymentGroup_count (r : LogRecord) (g : PaymentGroup) :
    (updPaymentGroup r g).count = g.count + 1 := by
  unfold updPaymentGroup
  split
  · cases r.upi_account_name <;> rfl
  · rfl

theorem updPaymentGroup_mode (r : LogRecord) (g : PaymentGroup) :
    (updPaymentGroup r g).mode = g.mode := by
  unfold updPaymentGroup
  split
  · cases r.upi_account_name <;> rfl
  · rfl

theorem updServiceGroup_revenue (r : LogRecord) (g : ServiceGroup) :
    (updServiceGroup r g).revenue = g.revenue + getAmount r := rfl

theorem updServiceGroup_count (r : LogRecord) (g : ServiceGroup) :
    (updServiceGroup r g).count = g.count + 1 := rfl

theorem sum_map_ones {α : Type*} (l : List α) : (l.map fun _ => (1 : Nat)).sum = l.length := by
  induction l with
  | nil => rfl
  | cons x t ih => simp [ih, Nat.add_comm]

/-! ## Conservation of revenue and counts through the grouping dicts -/

theorem payment_sum_revenue (logs : List LogRecord) :
    ((payment_mode_breakdown logs).map (fun p => p.2.revenue)).sum
      = (logs.map getAmount).sum := by
  have e : payment_mode_breakdown logs
      = logs.foldl (fun a r =>
          addToGroups (pmKey r) (newPaymentGroup (pmMode r)) (updPaymentGroup r) a) [] := rfl
  rw [e]
  simpa using sum_map_foldl_groups (fun g : PaymentGroup => g.revenue) pmKey
    (fun r => newPaymentGroup (pmMode r)) updPaymentGroup getAmount
    updPaymentGroup_revenue (fun _ => rfl) logs []

theorem payment_sum_count (logs : List LogRecord) :
    ((payment_mode_breakdown logs).map (fun p => p.2.count)).sum = logs.length := by
  have e : payment_mode_breakdown logs
      = logs.foldl (fun a r =>
          addToGroups (pmKey r) (newPaymentGroup (pmMode r)) (updPaymentGroup r) a) [] := rfl
  rw [e]
  have h := sum_map_foldl_groups (fun g : PaymentGroup => g.count) pmKey
    (fun r => newPaymentGroup (pmMode r)) updPaymentGroup (fun _ => 1)
    updPaymentGroup_count (fun _ => rfl) logs []
  simpa [sum_map_ones] using h

theorem service_sum_revenue (logs : List LogRecord) :
    ((service_breakdown logs).map (fun p => p.2.revenue)).sum
      = (logs.map getAmount).sum := by
  have e : service_breakdown logs
      = logs.foldl (fun a r =>
          addToGroups (svcKey r) (newServiceGroup (svcKey r)) (updServiceGroup r) a) [] := rfl
  rw [e]
  simpa using sum_map_foldl_groups (fun g : ServiceGroup => g.revenue)
    (fun r => svcKey r) (fun r => newServiceGroup (svcKey r)) updServiceGroup getAmount
    updServiceGroup_revenue (fun _ => rfl) logs []

theorem service_sum_count (logs : List LogRecord) :
    ((service_breakdown logs).map (fun p => p.2.count)).sum = logs.length := by
  have e : service_breakdown logs
      = logs.foldl (fun a r =>
          addToGroups (svcKey r) (newServiceGroup (svcKey r)) (updServiceGroup r) a) [] := rfl
  rw [e]
  have h := sum_map_foldl_groups (fun g : ServiceGroup => g.count)
    (fun r => svcKey r) (fun r => newServiceGroup (svcKey r)) updServiceGroup (fun _ => 1)
    updServiceGroup_count (fun _ => rfl) logs []
  simpa [sum_map_ones] using h

theorem vehicle_sum_count (logs : List LogRecord) :
    ((vehicle_distribution logs).map (fun p => p.2.count)).sum = logs.length := by
  have e : vehicle_distribution logs
      = logs.foldl (fun a r =>
          addToGroups (vehKey r) (newVehicleGroup (vehKey r)) (updVehicleGroup r) a) [] := rfl
  rw [e]
  have h := sum_map_foldl_groups (fun g : VehicleGroup => g.count)
    (fun r => vehKey r) (fun r => newVehicleGroup (vehKey r)) updVehicleGroup (fun _ => 1)
    (fun _ _ => rfl) (fun _ => rfl) logs []
  simpa [sum_map_ones] using h

theorem paymentFinal_map_revenue (T : Money) (gs : List (String × PaymentGroup)) :
    (paymentFinal T gs).map PaymentGroup.revenue = gs.map (fun p => p.2.revenue) := by
  unfold paymentFinal
  rw [List.map_map]
  rfl

theorem paymentFinal_map_count (T : Money) (gs : List (String × PaymentGroup)) :
    (paymentFinal T gs).map PaymentGroup.count = gs.map (fun p => p.2.count) := by
  unfold paymentFinal
  rw [List.map_map]
  rfl

theorem serviceFinal_map_revenue (T : Money) (gs : List (String × ServiceGroup)) :
    (serviceFinal T gs).map ServiceGroup.revenue = gs.map (fun p => p.2.revenue) := by
  unfold serviceFinal
  rw [List.map_map]
  rfl

theorem serviceFinal_map_count (T : Money) (gs : List (String × ServiceGroup)) :
    (serviceFinal T gs).map ServiceGroup.count = gs.map (fun p => p.2.count) := by
  unfold serviceFinal
  rw [List.map_map]
  rfl

theorem vehicleFinal_map_count (n : Nat) (gs : List (String × VehicleGroup)) :
    (vehicleFinal n gs).map VehicleGroup.count = gs.map (fun p => p.2.count) := by
  unfold vehicleFinal
  rw [List.map_map]
  rfl

theorem sum_map_mergeSort {α : Type*} {M : Type*} [AddCommMonoid M] (f : α → M)
    (le : α → α → Bool) (l : List α) :
    ((l.mergeSort le).map f).sum = (l.map f).sum :=
  List.Perm.sum_eq ((List.mergeSort_perm l le).map f)

/-- Claim C1: for every record list, the Analysis returned by `analyze_data`
satisfies revenue and count conservation — the revenues of
`paymentModeBreakdown` and of `serviceBreakdown` each sum to `totalRevenue`
(which is the sum of the records' amounts), and the counts of each of the
three breakdowns sum to `totalVehicles`, which equals the number of input
records. -/
theorem analyze_data_conservation (nowIst : Int) (logs : List LogRecord)
    (locs : List Location) :
    ((analyze_data nowIst logs locs).paymentModeBreakdown.map PaymentGroup.revenue).sum
        = (analyze_data nowIst logs locs).totalRevenue
    ∧ ((analyze_data nowIst logs locs).serviceBreakdown.map ServiceGroup.revenue).sum
        = (analyze_data nowIst logs locs).totalRevenue
    ∧ ((analyze_data nowIst logs locs).paymentModeBreakdown.map PaymentGroup.count).sum
        = (analyze_data nowIst logs locs).totalVehicles
    ∧ ((analyze_data nowIst logs locs).serviceBreakdown.map ServiceGroup.count).sum
        = (analyze_data nowIst logs locs).totalVehicles
    ∧ ((analyze_data nowIst logs locs).vehicleDistribution.map VehicleGroup.count).sum
        = (analyze_data nowIst logs locs).totalVehicles
    ∧ (analyze_data nowIst logs locs).totalVehicles = logs.length := by
  refine ⟨?_, ?_, ?_, ?_, ?_, rfl⟩
  · show ((paymentFinal ((logs.map getAmount).sum) (payment_mode_breakdown logs)).map
        PaymentGroup.revenue).sum = (logs.map getAmount).sum
    rw [paymentFinal_map_revenue, payment_sum_revenue]
  · show (((serviceFinal ((logs.map getAmount).sum) (service_breakdown logs)).mergeSort
        (fun a b => decide (b.revenue ≤ a.revenue))).map ServiceGroup.revenue).sum
      = (logs.map getAmount).sum
    rw [sum_map_mergeSort, serviceFinal_map_revenue, service_sum_revenue]
  · show ((paymentFinal ((logs.map getAmount).sum) (payment_mode_breakdown logs)).map
        PaymentGroup.count).sum = logs.length
    rw [paymentFinal_map_count, payment_sum_count]
  · show (((serviceFinal ((logs.map getAmount).sum) (service_breakdown logs)).mergeSort
        (fun a b => decide (b.revenue ≤ a.revenue))).map ServiceGroup.count).sum
      = logs.length
    rw [sum_map_mergeSort, serviceFinal_map_count, service_sum_count]
  · show (((vehicleFinal logs.length (vehicle_distribution logs)).mergeSort
        (fun a b => decide (b.count ≤ a.count))).map VehicleGroup.count).sum
      = logs.length
    rw [sum_map_mergeSort, vehicleFinal_map_count, vehicle_sum_count]

attribute [local semireducible] List.mergeSort List.merge

set_option maxRecDepth 10000

/-- Claim C5: `analyze_data` on the empty record list returns zero totals
(`totalRevenue`, `totalVehicles`, `avgService` all 0 — the average's division
by zero is guarded), all four breakdown lists empty, and the peak-hour and
top-service insights at their defined no-data defaults without crashing:
`peakHour` is the hour-0 slot's display `"12:00 AM"` with revenue 0 (the
first slot of the all-zero histogram, which the first-maximum scan keeps),
and `topService` is the `"N/A"` / 0 sentinel. -/
theorem analyze_data_empty (nowIst : Int) (locs : List Location) :
    analyze_data nowIst [] locs =
      { totalRevenue := 0, totalVehicles := 0, avgService := 0,
        paymentModeBreakdown := [], serviceBreakdown := [], vehicleDistribution := [],
        hourlyBreakdown := [], summaryPeakHour := "12:00 AM", summaryPeakHourRevenue := 0,
        insightsTopService := "N/A", insightsTopServiceRevenue := 0,
        insightsBusyHours := 0 } := by
  rfl

/-! ## Hourly histogram characterization -/

/-- What the accumulation loop does to one fixed slot over a record list. -/
def slotAcc (nowIstMin : Int) (logs : List LogRecord) (s : HourSlot) : HourSlot :=
  logs.foldl
    (fun t r => if t.hour = hourKey nowIstMin r then bumpSlot (getAmount r) t else t) s

theorem hourly_foldl_map (nowIst : Int) :
    ∀ (logs : List LogRecord) (slots : List HourSlot),
      logs.foldl (hourlyStep nowIst) slots = slots.map (slotAcc nowIst logs) := by
  intro logs
  induction logs with
  | nil =>
    intro slots
    show slots = slots.map (fun s => s)
    exact (List.map_id' slots).symm
  | cons r t ih =>
    intro slots
    simp only [List.foldl_cons]
    rw [show hourlyStep nowIst slots r
        = slots.map (fun s => if s.hour = hourKey nowIst r then bumpSlot (getAmount r) s else s)
      from rfl]
    rw [ih, List.map_map]
    rfl

theorem hourly_full_eq (nowIst : Int) (logs : List LogRecord) :
    hourly_full nowIst logs = initHourly.map (slotAcc nowIst logs) :=
  hourly_foldl_map nowIst logs initHourly

theorem slotAcc_hour (nowIst : Int) :
    ∀ (logs : List LogRecord) (s : HourSlot), (slotAcc nowIst logs s).hour = s.hour := by
  intro logs
  induction logs with
  | nil => intro s; rfl
  | cons r t ih =>
    intro s
    show (slotAcc nowIst t
        (if s.hour = hourKey nowIst r then bumpSlot (getAmount r) s else s)).hour = s.hour
    by_cases h : s.hour = hourKey nowIst r
    · rw [if_pos h, ih]
      rfl
    · rw [if_neg h, ih]

theorem slotAcc_label (nowIst : Int) :
    ∀ (logs : List LogRecord) (s : HourSlot), (slotAcc nowIst logs s).label = s.label := by
  intro logs
  induction logs with
  | nil => intro s; rfl
  | cons r t ih =>
    intro s
    show (slotAcc nowIst t
        (if s.hour = hourKey nowIst r then bumpSlot (getAmount r) s else s)).label = s.label
    by_cases h : s.hour = hourKey nowIst r
    · rw [if_pos h, ih]
      rfl
    · rw [if_neg h, ih]

theorem slotAcc_period (nowIst : Int) :
    ∀ (logs : List LogRecord) (s : HourSlot), (slotAcc nowIst logs s).period = s.period := by
  intro logs
  induction logs with
  | nil => intro s; rfl
  | cons r t ih =>
    intro s
    show (slotAcc nowIst t
        (if s.hour = hourKey nowIst r then bumpSlot (getAmount r) s else s)).period = s.period
    by_cases h : s.hour = hourKey nowIst r
    · rw [if_pos h, ih]
      rfl
    · rw [if_neg h, ih]

theorem slotAcc_count (nowIst : Int) :
    ∀ (logs : List LogRecord) (s : HourSlot),
      (slotAcc nowIst logs s).count
        = s.count + (logs.filter (fun r => hourKey nowIst r == s.hour)).length := by
  intro logs
  induction logs with
  | nil => intro s; simp [slotAcc]
  | cons r t ih =>
    intro s
    show (slotAcc nowIst t
        (if s.hour = hourKey nowIst r then bumpSlot (getAmount r) s else s)).count = _
    by_cases h : s.hour = hourKey nowIst r
    · have hb : (hourKey nowIst r == s.hour) = true := by simpa [beq_iff_eq] using h.symm
      rw [if_pos h, ih]
      simp only [List.filter_cons, hb, if_true]
      show (bumpSlot (getAmount r) s).count
          + (t.filter (fun q => hourKey nowIst q == (bumpSlot (getAmount r) s).hour)).length
        = s.count + (r :: t.filter (fun q => hourKey nowIst q == s.hour)).length
      simp only [List.length_cons]
      show s.count + 1 + (t.filter (fun q => hourKey nowIst q == s.hour)).length
        = s.count + ((t.filter (fun q => hourKey nowIst q == s.hour)).length + 1)
      omega
    · have hb : (hourKey nowIst r == s.hour) = false := by
        simp only [beq_eq_false_iff_ne, ne_eq]
        exact fun e => h e.symm
      rw [if_neg h, ih]
      simp only [List.filter_cons, hb, Bool.false_eq_true, if_false]

theorem slotAcc_amount (nowIst : Int) :
    ∀ (logs : List LogRecord) (s : HourSlot),
      (slotAcc nowIst logs s).amount
        = s.amount + ((logs.filter (fun r => hourKey nowIst r == s.hour)).map getAmount).sum := by
  intro logs
  induction logs with
  | nil => intro s; simp [slotAcc]
  | cons r t ih =>
    intro s
    show (slotAcc nowIst t
        (if s.hour = hourKey nowIst r then bumpSlot (getAmount r) s else s)).amount = _
    by_cases h : s.hour = hourKey nowIst r
    · have hb : (hourKey nowIst r == s.hour) = true := by simpa [beq_iff_eq] using h.symm
      rw [if_pos h, ih]
      simp only [List.filter_cons, hb, if_true, List.map_cons, List.sum_cons]
      show s.amount + getAmount r + ((t.filter (fun q => hourKey nowIst q == s.hour)).map getAmount).sum
        = s.amount + (getAmount r + ((t.filter (fun q => hourKey nowIst q == s.hour)).map getAmount).sum)
      rw [add_assoc]
    · have hb : (hourKey nowIst r == s.hour) = false := by
        simp only [beq_eq_false_iff_ne, ne_eq]
        exact fun e => h e.symm
      rw [if_neg h, ih]
      simp only [List.filter_cons, hb, Bool.false_eq_true, if_false]

theorem mkSlot_hour (i : Nat) : (mkSlot i).hour = i := rfl

theorem mkSlot_label (i : Nat) :
    (mkSlot i).label = pad2 (if i % 12 = 0 then 12 else i % 12) ++ " "
      ++ (if i < 12 then "AM" else "PM") := rfl

theorem mkSlot_period (i : Nat) :
    (mkSlot i).period = (if i < 12 then "AM" else "PM") := rfl

theorem initHourly_hours : initHourly.map HourSlot.hour = List.range 24 := by
  unfold initHourly
  rw [List.map_map]
  rw [show HourSlot.hour ∘ mkSlot = id from rfl, List.map_id]

theorem hourly_full_hours (nowIst : Int) (logs : List LogRecord) :
    (hourly_full nowIst logs).map HourSlot.hour = List.range 24 := by
  rw [hourly_full_eq, List.map_map]
  have e : HourSlot.hour ∘ slotAcc nowIst logs = HourSlot.hour := by
    funext s
    exact slotAcc_hour nowIst logs s
  rw [e, initHourly_hours]

theorem mem_hourly_full (nowIst : Int) (logs : List LogRecord) (s : HourSlot)
    (hs : s ∈ hourly_full nowIst logs) :
    ∃ i, i ∈ List.range 24 ∧ s = slotAcc nowIst logs (mkSlot i) := by
  rw [hourly_full_eq] at hs
  obtain ⟨a, ha, rfl⟩ := List.mem_map.mp hs
  obtain ⟨i, hi, rfl⟩ := List.mem_map.mp ha
  exact ⟨i, hi, rfl⟩

theorem hourly_full_count_amount (nowIst : Int) (logs : List LogRecord) :
    ∀ s ∈ hourly_full nowIst logs,
      s.count = (logs.filter (fun r => hourKey nowIst r == s.hour)).length
      ∧ s.amount = ((logs.filter (fun r => hourKey nowIst r == s.hour)).map getAmount).sum := by
  intro s hs
  obtain ⟨i, _, rfl⟩ := mem_hourly_full nowIst logs s hs
  rw [slotAcc_hour nowIst logs (mkSlot i), mkSlot_hour]
  constructor
  · rw [slotAcc_count nowIst logs (mkSlot i), mkSlot_hour,
        show (mkSlot i).count = 0 from rfl, Nat.zero_add]
  · rw [slotAcc_amount nowIst logs (mkSlot i), mkSlot_hour,
        show (mkSlot i).amount = 0 from rfl, zero_add]

theorem hourly_full_amount_zero (nowIst : Int) (logs : List LogRecord) :
    ∀ s ∈ hourly_full nowIst logs, s.count = 0 → s.amount = 0 := by
  intro s hs h0
  obtain ⟨hc, ha⟩ := hourly_full_count_amount nowIst logs s hs
  rw [hc] at h0
  rw [ha, List.length_eq_zero.mp h0]
  rfl

theorem hourly_filtered_eq_ne (nowIst : Int) (logs : List LogRecord) :
    hourly_filtered nowIst logs
      = (hourly_full nowIst logs).filter
          (fun s => decide (s.count ≠ 0) || decide (s.amount ≠ 0)) := by
  unfold hourly_filtered
  apply List.filter_congr
  intro s hs
  by_cases h : s.count = 0
  · have ha : s.amount = 0 := hourly_full_amount_zero nowIst logs s hs h
    simp [h, ha]
  · have hp : 0 < s.count := Nat.pos_of_ne_zero h
    simp [h, hp]

theorem hourly_labels (nowIst : Int) (logs : List LogRecord) :
    ∀ s ∈ hourly_full nowIst logs,
      s.label = pad2 (if s.hour % 12 = 0 then 12 else s.hour % 12) ++ " "
          ++ (if s.hour < 12 then "AM" else "PM")
      ∧ s.period = (if s.hour < 12 then "AM" else "PM") := by
  intro s hs
  obtain ⟨i, _, rfl⟩ := mem_hourly_full nowIst logs s hs
  rw [slotAcc_hour nowIst logs (mkSlot i), mkSlot_hour,
      slotAcc_label nowIst logs (mkSlot i), slotAcc_period nowIst logs (mkSlot i)]
  exact ⟨mkSlot_label i, mkSlot_period i⟩

/-- Claim C6: every record is accumulated into exactly one of the 24 hourly
slots — the slot of its `created_at` hour after conversion to IST (each
slot's count and amount are exactly those of the records whose IST hour
matches it, and the slot hours are exactly 0..23, one slot each); the
emitted `hourlyBreakdown` contains exactly the slots with nonzero count or
amount, in ascending hour order; and each slot carries the 12-hour label
`hour % 12` with 0 mapped to 12, AM below hour 12, PM otherwise. -/
theorem hourly_breakdown_spec (nowIst : Int) (logs : List LogRecord)
    (locs : List Location) :
    ((hourly_full nowIst logs).map HourSlot.hour = List.range 24)
    ∧ (∀ s ∈ hourly_full nowIst logs,
        s.count = (logs.filter (fun r => hourKey nowIst r == s.hour)).length
        ∧ s.amount = ((logs.filter (fun r => hourKey nowIst r == s.hour)).map getAmount).sum)
    ∧ (analyze_data nowIst logs locs).hourlyBreakdown
        = (hourly_full nowIst logs).filter
            (fun s => decide (s.count ≠ 0) || decide (s.amount ≠ 0))
    ∧ List.Sorted (· < ·) ((analyze_data nowIst logs locs).hourlyBreakdown.map HourSlot.hour)
    ∧ ∀ s ∈ (analyze_data nowIst logs locs).hourlyBreakdown,
        s.label = pad2 (if s.hour % 12 = 0 then 12 else s.hour % 12) ++ " "
            ++ (if s.hour < 12 then "AM" else "PM")
        ∧ s.period = (if s.hour < 12 then "AM" else "PM") := by
  have hfull : (analyze_data nowIst logs locs).hourlyBreakdown = hourly_filtered nowIst logs := rfl
  refine ⟨hourly_full_hours nowIst logs, hourly_full_count_amount nowIst logs, ?_, ?_, ?_⟩
  · rw [hfull]
    exact hourly_filtered_eq_ne nowIst logs
  · rw [hfull]
    have hsub : List.Sublist ((hourly_filtered nowIst logs).map HourSlot.hour)
        ((hourly_full nowIst logs).map HourSlot.hour) :=
      List.Sublist.map HourSlot.hour (List.filter_sublist _)
    have hsorted : List.Sorted (· < ·) ((hourly_full nowIst logs).map HourSlot.hour) := by
      rw [hourly_full_hours]
      exact List.pairwise_lt_range 24
    exact List.Pairwise.sublist hsub hsorted
  · rw [hfull]
    intro s hs
    exact hourly_labels nowIst logs s (List.mem_of_mem_filter hs)

/-- Concrete record used by witnesses: one approved record at 10:15 IST
(285 minutes UTC), amount 800. -/
def wLog : LogRecord := { created_at := .instVal 285, Amount := some 800 }

/-- Witness for `hourly_breakdown_spec` at a concrete slot of a concrete
record list: the hour-10 slot of `[wLog]` counts exactly the records whose
IST hour is 10. -/
theorem hourly_breakdown_spec_witness :
    (slotAcc 0 [wLog] (mkSlot 10)).count
      = ([wLog].filter (fun r => hourKey 0 r == (slotAcc 0 [wLog] (mkSlot 10)).hour)).length := by
  have hmem : slotAcc 0 [wLog] (mkSlot 10) ∈ hourly_full 0 [wLog] := by
    rw [hourly_full_eq]
    exact List.mem_map_of_mem _ (by decide)
  exact ((hourly_breakdown_spec 0 [wLog] []).2.1 _ hmem).1

/-- Claim C10: for a record whose `created_at` is missing/empty or not
parseable as an ISO timestamp, `parse_iso_to_ist` does not raise — it
returns the current IST wall-clock time (the run's `now_ist()`), so
`analyze_data` buckets such a record into the hourly slot of the moment the
analysis runs: its hour key is `istHour nowIst`, and the slot of that hour
counts at least all the unparseable records. -/
theorem parse_iso_to_ist_fallback (nowIst : Int) (r : LogRecord)
    (logs : List LogRecord) :
    parse_iso_to_ist nowIst CreatedAt.empty = nowIst
    ∧ parse_iso_to_ist nowIst CreatedAt.malformed = nowIst
    ∧ ((r.created_at = CreatedAt.empty ∨ r.created_at = CreatedAt.malformed) →
        hourKey nowIst r = istHour nowIst)
    ∧ ∀ s ∈ hourly_full nowIst logs, s.hour = istHour nowIst →
        (logs.filter (fun q =>
            decide (q.created_at = CreatedAt.empty ∨ q.created_at = CreatedAt.malformed))).length
          ≤ s.count := by
  refine ⟨rfl, rfl, ?_, ?_⟩
  · intro h
    rcases h with h | h <;> simp [hourKey, h, parse_iso_to_ist]
  · intro s hs hh
    rw [(hourly_full_count_amount nowIst logs s hs).1]
    rw [← List.countP_eq_length_filter, ← List.countP_eq_length_filter]
    apply List.countP_mono_left
    intro q hq hdec
    have hq2 : q.created_at = CreatedAt.empty ∨ q.created_at = CreatedAt.malformed :=
      of_decide_eq_true hdec
    have : hourKey nowIst q = istHour nowIst := by
      rcases hq2 with h | h <;> simp [hourKey, h, parse_iso_to_ist]
    rw [this, hh]
    exact beq_self_eq_true _

/-- Witness for `parse_iso_to_ist_fallback`: a record with empty
`created_at`, at a run time of 615 minutes IST (hour 10), gets hour key 10. -/
theorem parse_iso_to_ist_fallback_witness :
    hourKey 615 { created_at := CreatedAt.empty } = istHour 615
    ∧ parse_iso_to_ist 615 CreatedAt.empty = 615 := by
  have h := parse_iso_to_ist_fallback 615 { created_at := CreatedAt.empty } []
  exact ⟨h.2.2.1 (Or.inl rfl), h.1⟩

/-! ## First-maximum selection (Python `max`) -/

theorem pyMaxFold_first_max (rev : α → Money) :
    ∀ (l : List α) (x : α),
      ∃ l₁ l₂, x :: l = l₁ ++ pyMaxFold rev x l :: l₂
        ∧ (∀ y ∈ l₁, rev y < rev (pyMaxFold rev x l))
        ∧ (∀ y ∈ l₂, rev y ≤ rev (pyMaxFold rev x l)) := by
  intro l
  induction l with
  | nil =>
    intro x
    exact ⟨[], [], rfl, by simp, by simp⟩
  | cons y t ih =>
    intro x
    have hstep : pyMaxFold rev x (y :: t)
        = pyMaxFold rev (if rev x < rev y then y else x) t := rfl
    by_cases h : rev x < rev y
    · rw [hstep, if_pos h] at *
      obtain ⟨l₁, l₂, heq, h₁, h₂⟩ := ih y
      refine ⟨x :: l₁, l₂, ?_, ?_, h₂⟩
      · rw [List.cons_append, ← heq]
      · intro z hz
        rcases List.mem_cons.mp hz with rfl | hz
        · -- rev x < rev y ≤ rev (pyMaxFold rev y t)
          cases l₁ with
          | nil =>
            have : y = pyMaxFold rev y t := by
              have := heq
              simp only [List.nil_append] at this
              exact (List.cons_eq_cons.mp this).1
            exact this ▸ h
          | cons a l₁' =>
            have ha : a = y := by
              have := heq
              simp only [List.cons_append] at this
              exact ((List.cons_eq_cons.mp this).1).symm
            have : rev y < rev (pyMaxFold rev y t) := by
              apply h₁
              rw [ha] at *
              exact List.mem_cons_self _ _
            exact lt_trans h this
        · exact h₁ z hz
    · rw [hstep, if_neg h] at *
      have hyx : rev y ≤ rev x := le_of_not_lt h
      obtain ⟨l₁, l₂, heq, h₁, h₂⟩ := ih x
      cases l₁ with
      | nil =>
        simp only [List.nil_append] at heq
        have hx : x = pyMaxFold rev x t := (List.cons_eq_cons.mp heq).1
        have ht : t = l₂ := (List.cons_eq_cons.mp heq).2
        refine ⟨[], y :: t, ?_, by simp, ?_⟩
        · simp [← hx]
        · intro z hz
          rcases List.mem_cons.mp hz with rfl | hz
          · exact le_of_le_of_eq hyx (congrArg rev hx)
          · rw [ht] at hz
            exact h₂ z hz
      | cons a l₁' =>
        simp only [List.cons_append] at heq
        have ha : a = x := ((List.cons_eq_cons.mp heq).1).symm
        have ht : t = l₁' ++ pyMaxFold rev x t :: l₂ := (List.cons_eq_cons.mp heq).2
        have hxlt : rev x < rev (pyMaxFold rev x t) := by
          apply h₁
          rw [ha] at *
          exact List.mem_cons_self _ _
        refine ⟨x :: y :: l₁', l₂, ?_, ?_, h₂⟩
        · simp [List.cons_append, ← ht]
        · intro z hz
          rcases List.mem_cons.mp hz with rfl | hz
          · exact hxlt
          rcases List.mem_cons.mp hz with rfl | hz
          · exact lt_of_le_of_lt hyx hxlt
          · apply h₁
            rw [ha] at *
            exact List.mem_cons_of_mem _ hz

theorem hourly_full_ne_nil (nowIst : Int) (logs : List LogRecord) :
    hourly_full nowIst logs ≠ [] := by
  intro h
  have hlen := congrArg List.length (hourly_full_hours nowIst logs)
  rw [h] at hlen
  simp at hlen

/-- Claim C9: `analyze_data` is deterministic — in this pure embedding two
runs on the same record list are definitionally the same Analysis — and the
peak-hour / top-service selection picks the first-encountered maximum: the
peak hour splits the 24-slot list into a strictly-smaller prefix and a
no-larger suffix (so on a revenue tie the lowest hour wins), and the top
service splits the service list (in first-seen insertion order) the same
way. -/
theorem analyze_data_first_max_tie_break (nowIst : Int) (logs : List LogRecord)
    (locs : List Location) :
    analyze_data nowIst logs locs = analyze_data nowIst logs locs
    ∧ (analyze_data nowIst logs locs).summaryPeakHour = (peak_hour nowIst logs).display
    ∧ (analyze_data nowIst logs locs).summaryPeakHourRevenue = (peak_hour nowIst logs).revenue
    ∧ (∃ l₁ l₂, hourly_full nowIst logs = l₁ ++ peak_hour nowIst logs :: l₂
        ∧ (∀ y ∈ l₁, y.revenue < (peak_hour nowIst logs).revenue)
        ∧ (∀ y ∈ l₂, y.revenue ≤ (peak_hour nowIst logs).revenue))
    ∧ (serviceFinal ((logs.map getAmount).sum) (service_breakdown logs) = [] →
        (analyze_data nowIst logs locs).insightsTopService = "N/A"
        ∧ (analyze_data nowIst logs locs).insightsTopServiceRevenue = 0)
    ∧ ∀ x xs, serviceFinal ((logs.map getAmount).sum) (service_breakdown logs) = x :: xs →
        ∃ m l₁ l₂, x :: xs = l₁ ++ m :: l₂
          ∧ (analyze_data nowIst logs locs).insightsTopService = m.name
          ∧ (analyze_data nowIst logs locs).insightsTopServiceRevenue = m.revenue
          ∧ (∀ y ∈ l₁, y.revenue < m.revenue)
          ∧ (∀ y ∈ l₂, y.revenue ≤ m.revenue) := by
  refine ⟨rfl, rfl, rfl, ?_, ?_, ?_⟩
  · obtain ⟨x, xs, hxx⟩ := List.exists_cons_of_ne_nil (hourly_full_ne_nil nowIst logs)
    have hp : peak_hour nowIst logs = pyMaxFold (fun s => s.revenue) x xs := by
      unfold peak_hour
      rw [hxx]
    obtain ⟨l₁, l₂, heq, h₁, h₂⟩ := pyMaxFold_first_max (fun s : HourSlot => s.revenue) xs x
    rw [hp, hxx]
    exact ⟨l₁, l₂, heq, h₁, h₂⟩
  · intro h
    have e : peak_service ((logs.map getAmount).sum) logs = { name := "N/A", revenue := 0 } := by
      unfold peak_service
      rw [h]
    constructor
    · show (peak_service ((logs.map getAmount).sum) logs).name = "N/A"
      rw [e]
    · show (peak_service ((logs.map getAmount).sum) logs).revenue = 0
      rw [e]
  · intro x xs h
    have e : peak_service ((logs.map getAmount).sum) logs
        = { name := (pyMaxFold (fun s => s.revenue) x xs).name,
            revenue := (pyMaxFold (fun s => s.revenue) x xs).revenue } := by
      unfold peak_service
      rw [h]
    obtain ⟨l₁, l₂, heq, h₁, h₂⟩ := pyMaxFold_first_max (fun s : ServiceGroup => s.revenue) xs x
    refine ⟨pyMaxFold (fun s => s.revenue) x xs, l₁, l₂, heq, ?_, ?_, h₁, h₂⟩
    · show (peak_service ((logs.map getAmount).sum) logs).name = _
      rw [e]
    · show (peak_service ((logs.map getAmount).sum) logs).revenue = _
      rw [e]

/-- Records with two services of equal revenue, first seen "A" then "B". -/
def tieLogs : List LogRecord :=
  [ { created_at := .instVal 0, service := some "A", Amount := some 5 },
    { created_at := .instVal 0, service := some "B", Amount := some 5 } ]

/-- Witness for `analyze_data_first_max_tie_break`: on two services "A" and
"B" tied at revenue 5, the selected top service is a first-maximum split of
the service list. -/
theorem analyze_data_first_max_tie_break_witness :
    ∃ m l₁ l₂,
      ({ service := "A", name := "A", count := 1, revenue := 5, price := 5,
         averagePrice := 5, revenueShare := 50 } : ServiceGroup)
        :: [{ service := "B", name := "B", count := 1, revenue := 5, price := 5,
              averagePrice := 5, revenueShare := 50 }]
        = l₁ ++ m :: l₂
      ∧ (analyze_data 0 tieLogs []).insightsTopService = m.name
      ∧ (analyze_data 0 tieLogs []).insightsTopServiceRevenue = m.revenue
      ∧ (∀ y ∈ l₁, y.revenue < m.revenue)
      ∧ (∀ y ∈ l₂, y.revenue ≤ m.revenue) := by
  refine (analyze_data_first_max_tie_break 0 tieLogs []).2.2.2.2.2 _ _ ?_
  norm_num +decide [tieLogs, service_breakdown, serviceStep, addToGroups, bumpFirst,
    updServiceGroup, newServiceGroup, svcKey, getAmount, serviceFinal, List.lookup]

/-- Claim C8: `fetch_today_filtered_logs` keeps exactly the rows with
`approval_status = "approved"`, matching the given location when one is
supplied, and with `created_at` in the half-open window
`[start, start + 24h)`, where `start` is midnight of the current IST
calendar day converted to UTC (`1440 * ((nowUtc + 330) / 1440) - 330`
minutes).  The lower bound is inclusive, the upper strict, and each instant
belongs to the window iff its IST calendar day is the current one — so no
record at a day boundary is double-counted or dropped. -/
theorem fetch_today_filtered_logs_spec (nowUtc : Int) (locId : Option String)
    (rows : List DbRow) (r : DbRow) :
    (r ∈ fetch_today_filtered_logs nowUtc locId rows ↔
      r ∈ rows ∧ r.approval_status = "approved"
        ∧ (∀ l, locId = some l → r.loc_id = some l)
        ∧ (ist_day_utc_bounds (now_ist nowUtc)).1 ≤ r.created_at_utc
        ∧ r.created_at_utc < (ist_day_utc_bounds (now_ist nowUtc)).1 + minutesPerDay)
    ∧ (ist_day_utc_bounds (now_ist nowUtc)).1
        = minutesPerDay * ((nowUtc + istOffsetMin) / minutesPerDay) - istOffsetMin
    ∧ (ist_day_utc_bounds (now_ist nowUtc)).2
        = (ist_day_utc_bounds (now_ist nowUtc)).1 + minutesPerDay
    ∧ ∀ t : Int,
        ((ist_day_utc_bounds (now_ist nowUtc)).1 ≤ t
            ∧ t < (ist_day_utc_bounds (now_ist nowUtc)).1 + minutesPerDay)
          ↔ (t + istOffsetMin) / minutesPerDay = (nowUtc + istOffsetMin) / minutesPerDay := by
  refine ⟨?_, ?_, rfl, ?_⟩
  · rw [fetch_today_filtered_logs, List.mem_filter]
    cases locId with
    | none =>
      simp only [fetchFilter, Bool.and_eq_true, beq_iff_eq, decide_eq_true_eq]
      constructor
      · intro h
        refine ⟨h.1, ?_⟩
        have hb := h.2
        exact ⟨hb.1.1.1, by rintro l ⟨⟩, hb.1.2, hb.2⟩
      · intro h
        refine ⟨h.1, ?_⟩
        exact ⟨⟨⟨h.2.1, trivial⟩, h.2.2.2.1⟩, h.2.2.2.2⟩
    | some l0 =>
      simp only [fetchFilter, Bool.and_eq_true, beq_iff_eq, decide_eq_true_eq]
      constructor
      · intro h
        refine ⟨h.1, ?_⟩
        have hb := h.2
        refine ⟨hb.1.1.1, ?_, hb.1.2, hb.2⟩
        rintro l hl
        cases hl
        exact hb.1.1.2
      · intro h
        refine ⟨h.1, ?_⟩
        exact ⟨⟨⟨h.2.1, h.2.2.1 l0 rfl⟩, h.2.2.2.1⟩, h.2.2.2.2⟩
  · show (nowUtc + istOffsetMin) / minutesPerDay * minutesPerDay - istOffsetMin = _
    rw [Int.mul_comm]
  · intro t
    show ((nowUtc + istOffsetMin) / minutesPerDay * minutesPerDay - istOffsetMin ≤ t
        ∧ t < (nowUtc + istOffsetMin) / minutesPerDay * minutesPerDay - istOffsetMin
            + minutesPerDay) ↔ _
    rw [show istOffsetMin = (330 : Int) from rfl, show minutesPerDay = (1440 : Int) from rfl]
    omega

/-- Witness for `fetch_today_filtered_logs_spec`: at UTC minute 0 (5:30 IST)
with no location filter, an approved row at UTC minute 100 is selected, and
the window membership criterion holds for it. -/
theorem fetch_today_filtered_logs_spec_witness :
    ({ approval_status := "approved", loc_id := none, created_at_utc := 100 } : DbRow)
      ∈ fetch_today_filtered_logs 0 none
        [{ approval_status := "approved", loc_id := none, created_at_utc := 100 }] := by
  refine (fetch_today_filtered_logs_spec 0 none
    [{ approval_status := "approved", loc_id := none, created_at_utc := 100 }]
    { approval_status := "approved", loc_id := none, created_at_utc := 100 }).1.mpr
    ⟨List.mem_singleton_self _, rfl, ?_, by decide, by decide⟩
  rintro l ⟨⟩

/-! ## Percentage bounds (claim C2) -/

theorem mem_bumpFirst_pres (key : String) (f : β → β) (P : β → Prop)
    (hf : ∀ g, P g → P (f g)) :
    ∀ l : List (String × β), (∀ p ∈ l, P p.2) → ∀ p ∈ bumpFirst key f l, P p.2 := by
  intro l
  induction l with
  | nil => intro _ p hp; cases hp
  | cons q t ih =>
    intro hl p hp
    obtain ⟨a, b⟩ := q
    simp only [bumpFirst] at hp
    by_cases h : a = key
    · rw [if_pos h] at hp
      rcases List.mem_cons.mp hp with rfl | hp
      · exact hf b (hl (a, b) (List.mem_cons_self _ _))
      · exact hl p (List.mem_cons_of_mem _ hp)
    · rw [if_neg h] at hp
      rcases List.mem_cons.mp hp with rfl | hp
      · exact hl (a, b) (List.mem_cons_self _ _)
      · exact ih (fun x hx => hl x (List.mem_cons_of_mem _ hx)) p hp

theorem mem_addToGroups_pres (key : String) (init : β) (f : β → β) (P : β → Prop)
    (hf : ∀ g, P g → P (f g)) (hinit : P init) (l : List (String × β))
    (hl : ∀ p ∈ l, P p.2) :
    ∀ p ∈ addToGroups key init f l, P p.2 := by
  unfold addToGroups
  by_cases h : (l.lookup key).isSome
  · rw [if_pos h]
    exact mem_bumpFirst_pres key f P hf l hl
  · rw [if_neg h]
    apply mem_bumpFirst_pres key f P hf
    intro p hp
    rcases List.mem_append.mp hp with hp | hp
    · exact hl p hp
    · rcases List.mem_singleton.mp hp with rfl
      exact hinit

theorem mem_foldl_groups_pres {α : Type*} (key : α → String) (init : α → β)
    (f : α → β → β) (P : β → Prop) :
    ∀ (logs : List α) (acc : List (String × β)),
      (∀ r ∈ logs, ∀ g, P g → P (f r g)) → (∀ r ∈ logs, P (init r)) →
      (∀ p ∈ acc, P p.2) →
      ∀ p ∈ logs.foldl (fun a r => addToGroups (key r) (init r) (f r) a) acc, P p.2 := by
  intro logs
  induction logs with
  | nil => intro acc _ _ hacc; exact hacc
  | cons r t ih =>
    intro acc hf hinit hacc
    simp only [List.foldl_cons]
    apply ih
    · intro q hq; exact hf q (List.mem_cons_of_mem _ hq)
    · intro q hq; exact hinit q (List.mem_cons_of_mem _ hq)
    · exact mem_addToGroups_pres _ _ _ P (hf r (List.mem_cons_self _ _))
        (hinit r (List.mem_cons_self _ _)) acc hacc

theorem payment_groups_nonneg (logs : List LogRecord)
    (hpos : ∀ r ∈ logs, 0 ≤ getAmount r) :
    ∀ p ∈ payment_mode_breakdown logs, 0 ≤ p.2.revenue := by
  have e : payment_mode_breakdown logs
      = logs.foldl (fun a r =>
          addToGroups (pmKey r) (newPaymentGroup (pmMode r)) (updPaymentGroup r) a) [] := rfl
  rw [e]
  apply mem_foldl_groups_pres pmKey (fun r => newPaymentGroup (pmMode r)) updPaymentGroup
    (fun g => 0 ≤ g.revenue) logs []
  · intro r hr g hg
    rw [updPaymentGroup_revenue]
    exact add_nonneg hg (hpos r hr)
  · intro r _
    exact le_refl 0
  · intro p hp
    cases hp

theorem service_groups_nonneg (logs : List LogRecord)
    (hpos : ∀ r ∈ logs, 0 ≤ getAmount r) :
    ∀ p ∈ service_breakdown logs, 0 ≤ p.2.revenue := by
  have e : service_breakdown logs
      = logs.foldl (fun a r =>
          addToGroups (svcKey r) (newServiceGroup (svcKey r)) (updServiceGroup r) a) [] := rfl
  rw [e]
  apply mem_foldl_groups_pres (fun r => svcKey r) (fun r => newServiceGroup (svcKey r))
    updServiceGroup (fun g => 0 ≤ g.revenue) logs []
  · intro r hr g hg
    rw [updServiceGroup_revenue]
    exact add_nonneg hg (hpos r hr)
  · intro r _
    exact le_refl 0
  · intro p hp
    cases hp

/-- A nonnegative share of a total it does not exceed, times 100, lies in
[0,100]; the guarded formula is 0 when the total is not positive. -/
theorem pct_bounds (T v : Money) (hv : 0 ≤ v) (hvT : v ≤ T) :
    0 ≤ (if 0 < T then v / T * 100 else 0)
    ∧ (if 0 < T then v / T * 100 else 0) ≤ 100
    ∧ (T = 0 → (if 0 < T then v / T * 100 else 0) = 0) := by
  by_cases hT : 0 < T
  · rw [if_pos hT]
    refine ⟨by positivity, ?_, fun h0 => absurd h0 (ne_of_gt hT)⟩
    have h1 : v / T ≤ 1 := (div_le_one hT).mpr hvT
    calc v / T * 100 ≤ 1 * 100 := by
          apply mul_le_mul_of_nonneg_right h1
          norm_num
      _ = 100 := one_mul 100
  · rw [if_neg hT]
    exact ⟨le_refl 0, by norm_num, fun _ => rfl⟩

theorem pct_bounds_of_pos (T v : Money) (hT : 0 < T) (hv : 0 ≤ v) (hvT : v ≤ T) :
    0 ≤ v / T * 100 ∧ v / T * 100 ≤ 100 := by
  refine ⟨by positivity, ?_⟩
  have h1 : v / T ≤ 1 := (div_le_one hT).mpr hvT
  calc v / T * 100 ≤ 1 * 100 := by
        apply mul_le_mul_of_nonneg_right h1
        norm_num
    _ = 100 := one_mul 100

theorem optionMapAll_some_map (g : Money → Money) :
    ∀ l : List Money, optionMapAll (fun a => some (g a)) l = some (l.map g) := by
  intro l
  induction l with
  | nil => rfl
  | cons a t ih => simp [optionMapAll, ih]

theorem multiLocPercents_pos (revs : List Money) (h : revs.sum ≠ 0) :
    multiLocPercents revs = some (revs.map (fun r => r / revs.sum * 100)) := by
  unfold multiLocPercents
  have e : multiLocPercent revs.sum = fun r => some (r / revs.sum * 100) := by
    funext r
    unfold multiLocPercent
    rw [if_neg h]
  rw [e]
  exact optionMapAll_some_map _ revs

theorem multiLocPercents_zero (revs : List Money) (hne : revs ≠ []) (h : revs.sum = 0) :
    multiLocPercents revs = none := by
  cases revs with
  | nil => exact absurd rfl hne
  | cons a t =>
    unfold multiLocPercents
    simp [optionMapAll, multiLocPercent, h]

/-- Records with one positive and one negative amount: refunds shrink the
total below a single mode's revenue. -/
def cx2Logs : List LogRecord :=
  [ { created_at := .instVal 0, payment_mode := some "a", Amount := some 10 },
    { created_at := .instVal 0, payment_mode := some "b", Amount := some (-5) } ]

/-- Claim C2 counterexample: with one +10 record (mode "a") and one -5
record (mode "b"), mode "a"'s percentage is 200 and mode "b"'s is -100 —
outside [0,100] — even though the claim promises [0,100] for lists
containing negative amounts; and the multi-location percent at consolidated
revenue 0 with one location raises (no value) instead of being 0. -/
theorem percentage_claim_counterexample :
    (analyze_data 0 cx2Logs []).paymentModeBreakdown.map PaymentGroup.percentage = [200, -100]
    ∧ ¬ ((200 : Money) ≤ 100)
    ∧ multiLocPercents [0] = none := by
  refine ⟨?_, by norm_num, multiLocPercents_zero [0] (by simp) (by simp)⟩
  show (paymentFinal ((cx2Logs.map getAmount).sum) (payment_mode_breakdown cx2Logs)).map
      PaymentGroup.percentage = [200, -100]
  norm_num +decide [cx2Logs, payment_mode_breakdown, paymentStep, addToGroups, bumpFirst,
    updPaymentGroup, newPaymentGroup, pmKey, pmMode, strLower, getAmount, paymentFinal,
    List.lookup]

/-- Claim C2 as amended: when every record amount is nonnegative, every
percentage `analyze_data` computes (payment percentages, service revenue
shares, vehicle percentages) lies in [0,100], and the revenue-based ones are
exactly 0 whenever `totalRevenue` is 0 (the division is guarded, never
NaN/error); with negative amounts the revenue percentages may leave [0,100]
(see the counterexample).  The multi-location percent-of-consolidated-revenue
has no zero guard: with at least one location row and consolidated revenue 0
it raises `ZeroDivisionError` (modelled `none`) rather than producing 0;
when the consolidated revenue is nonzero and amounts are nonnegative it lies
in [0,100]. -/
theorem percentage_amended (nowIst : Int) (logs : List LogRecord)
    (locs : List Location) (hpos : ∀ r ∈ logs, 0 ≤ getAmount r) :
    (∀ g ∈ (analyze_data nowIst logs locs).paymentModeBreakdown,
        (0 ≤ g.percentage ∧ g.percentage ≤ 100)
        ∧ ((analyze_data nowIst logs locs).totalRevenue = 0 → g.percentage = 0))
    ∧ (∀ g ∈ (analyze_data nowIst logs locs).serviceBreakdown,
        (0 ≤ g.revenueShare ∧ g.revenueShare ≤ 100)
        ∧ ((analyze_data nowIst logs locs).totalRevenue = 0 → g.revenueShare = 0))
    ∧ (∀ g ∈ (analyze_data nowIst logs locs).vehicleDistribution,
        0 ≤ g.percentage ∧ g.percentage ≤ 100)
    ∧ (∀ revs : List Money, (∀ x ∈ revs, 0 ≤ x) → revs.sum ≠ 0 →
        ∀ ps, multiLocPercents revs = some ps → ∀ p ∈ ps, 0 ≤ p ∧ p ≤ 100)
    ∧ (∀ revs : List Money, revs ≠ [] → revs.sum = 0 → multiLocPercents revs = none) := by
  refine ⟨?_, ?_, ?_, ?_, multiLocPercents_zero⟩
  · intro g hg
    have hg2 : g ∈ paymentFinal ((logs.map getAmount).sum) (payment_mode_breakdown logs) := hg
    obtain ⟨p, hp, rfl⟩ := List.mem_map.mp hg2
    have hrev0 : 0 ≤ p.2.revenue := payment_groups_nonneg logs hpos p hp
    have hrevT : p.2.revenue ≤ (logs.map getAmount).sum := by
      rw [← payment_sum_revenue logs]
      apply List.single_le_sum _ _ (List.mem_map_of_mem (fun q => q.2.revenue) hp)
      intro x hx
      obtain ⟨q, hq, rfl⟩ := List.mem_map.mp hx
      exact payment_groups_nonneg logs hpos q hq
    have hb := pct_bounds ((logs.map getAmount).sum) p.2.revenue hrev0 hrevT
    exact ⟨⟨hb.1, hb.2.1⟩, fun h0 => hb.2.2 h0⟩
  · intro g hg
    have hg2 : g ∈ (serviceFinal ((logs.map getAmount).sum) (service_breakdown logs)).mergeSort
        (fun a b => decide (b.revenue ≤ a.revenue)) := hg
    rw [List.mem_mergeSort] at hg2
    obtain ⟨p, hp, rfl⟩ := List.mem_map.mp hg2
    have hrev0 : 0 ≤ p.2.revenue := service_groups_nonneg logs hpos p hp
    have hrevT : p.2.revenue ≤ (logs.map getAmount).sum := by
      rw [← service_sum_revenue logs]
      apply List.single_le_sum _ _ (List.mem_map_of_mem (fun q => q.2.revenue) hp)
      intro x hx
      obtain ⟨q, hq, rfl⟩ := List.mem_map.mp hx
      exact service_groups_nonneg logs hpos q hq
    have hb := pct_bounds ((logs.map getAmount).sum) p.2.revenue hrev0 hrevT
    exact ⟨⟨hb.1, hb.2.1⟩, fun h0 => hb.2.2 h0⟩
  · intro g hg
    have hg2 : g ∈ (vehicleFinal logs.length (vehicle_distribution logs)).mergeSort
        (fun a b => decide (b.count ≤ a.count)) := hg
    rw [List.mem_mergeSort] at hg2
    obtain ⟨p, hp, rfl⟩ := List.mem_map.mp hg2
    by_cases hn : 0 < logs.length
    · have hcount : p.2.count ≤ logs.length := by
        rw [← vehicle_sum_count logs]
        apply List.single_le_sum _ _ (List.mem_map_of_mem (fun q => q.2.count) hp)
        intro x _
        exact Nat.zero_le x
      have hb := pct_bounds_of_pos (logs.length : Money) (p.2.count : Money)
        (by exact_mod_cast hn) (by positivity) (by exact_mod_cast hcount)
      show 0 ≤ (if 0 < logs.length then (p.2.count : Money) / (logs.length : Money) * 100 else 0)
          ∧ (if 0 < logs.length then (p.2.count : Money) / (logs.length : Money) * 100 else 0) ≤ 100
      rw [if_pos hn]
      exact hb
    · show 0 ≤ (if 0 < logs.length then (p.2.count : Money) / (logs.length : Money) * 100 else 0)
          ∧ (if 0 < logs.length then (p.2.count : Money) / (logs.length : Money) * 100 else 0) ≤ 100
      rw [if_neg hn]
      norm_num
  · intro revs hnn hs ps hps p hp
    rw [multiLocPercents_pos revs hs] at hps
    cases hps
    obtain ⟨r, hr, rfl⟩ := List.mem_map.mp hp
    have hsum0 : 0 ≤ revs.sum := List.sum_nonneg hnn
    exact pct_bounds_of_pos revs.sum r (lt_of_le_of_ne hsum0 (Ne.symm hs)) (hnn r hr)
      (List.single_le_sum hnn r hr)

/-- The one payment group `[wLog]` produces: absent mode defaults to
`"Cash"`, revenue 800, percentage 100. -/
def wPayGroup : PaymentGroup :=
  { mode := "Cash", displayName := "Cash", count := 1, transactions := 1,
    revenue := 800, percentage := 100, upiAccounts := [] }

/-- Witness for `percentage_amended` at a concrete nonnegative record list
and its concrete payment group. -/
theorem percentage_amended_witness :
    (0 ≤ wPayGroup.percentage ∧ wPayGroup.percentage ≤ 100)
    ∧ ((analyze_data 0 [wLog] []).totalRevenue = 0 → wPayGroup.percentage = 0) := by
  apply (percentage_amended 0 [wLog] [] ?_).1 wPayGroup ?_
  · intro r hr
    rcases List.mem_singleton.mp hr with rfl
    norm_num [wLog, getAmount]
  · show wPayGroup ∈ paymentFinal (([wLog].map getAmount).sum) (payment_mode_breakdown [wLog])
    norm_num +decide [wLog, wPayGroup, payment_mode_breakdown, paymentStep, addToGroups,
      bumpFirst, updPaymentGroup, newPaymentGroup, pmKey, pmMode, strLower, getAmount,
      paymentFinal, List.lookup]

/-! ## Grouping semantics (claim C7) -/

theorem payment_lookup_groupFold (logs : List LogRecord) (k : String) :
    (payment_mode_breakdown logs).lookup k
      = groupFold (fun r => newPaymentGroup (pmMode r)) updPaymentGroup
          (logs.filter fun r => pmKey r == k) := by
  have e : payment_mode_breakdown logs
      = logs.foldl (fun a r =>
          addToGroups (pmKey r) (newPaymentGroup (pmMode r)) (updPaymentGroup r) a) [] := rfl
  rw [e, lookup_foldl_groups]
  exact foldl_option_none_eq_groupFold _ _ _

theorem service_lookup_groupFold (logs : List LogRecord) (k : String) :
    (service_breakdown logs).lookup k
      = groupFold (fun r => newServiceGroup (svcKey r)) updServiceGroup
          (logs.filter fun r => svcKey r == k) := by
  have e : service_breakdown logs
      = logs.foldl (fun a r =>
          addToGroups (svcKey r) (newServiceGroup (svcKey r)) (updServiceGroup r) a) [] := rfl
  rw [e, lookup_foldl_groups]
  exact foldl_option_none_eq_groupFold _ _ _

theorem vehicle_lookup_groupFold (logs : List LogRecord) (k : String) :
    (vehicle_distribution logs).lookup k
      = groupFold (fun r => newVehicleGroup (vehKey r)) updVehicleGroup
          (logs.filter fun r => vehKey r == k) := by
  have e : vehicle_distribution logs
      = logs.foldl (fun a r =>
          addToGroups (vehKey r) (newVehicleGroup (vehKey r)) (updVehicleGroup r) a) [] := rfl
  rw [e, lookup_foldl_groups]
  exact foldl_option_none_eq_groupFold _ _ _

theorem foldl_upd_mode :
    ∀ (rs : List LogRecord) (g0 : PaymentGroup),
      (rs.foldl (fun g r => updPaymentGroup r g) g0).mode = g0.mode := by
  intro rs
  induction rs with
  | nil => intro g0; rfl
  | cons r t ih =>
    intro g0
    simp only [List.foldl_cons]
    rw [ih, updPaymentGroup_mode]

theorem updPaymentGroup_upiAccounts_other (r : LogRecord) (g : PaymentGroup)
    (h : pmKey r ≠ "upi") :
    (updPaymentGroup r g).upiAccounts = g.upiAccounts := by
  unfold updPaymentGroup
  rw [if_neg h]

theorem updPaymentGroup_upiAccounts_noacct (r : LogRecord) (g : PaymentGroup)
    (h : r.upi_account_name = none) :
    (updPaymentGroup r g).upiAccounts = g.upiAccounts := by
  unfold updPaymentGroup
  split
  · rw [h]
  · rfl

theorem updPaymentGroup_upiAccounts_upi (r : LogRecord) (g : PaymentGroup)
    (acct : String) (hk : pmKey r = "upi") (hacct : r.upi_account_name = some acct) :
    (updPaymentGroup r g).upiAccounts
      = addToGroups acct ⟨0, 0⟩ (bumpUpi (getAmount r)) g.upiAccounts := by
  unfold updPaymentGroup
  rw [if_pos hk, hacct]

theorem foldl_upd_upi_sums :
    ∀ (rs : List LogRecord) (g0 : PaymentGroup), (∀ r ∈ rs, pmKey r = "upi") →
      (((rs.foldl (fun g r => updPaymentGroup r g) g0).upiAccounts.map
          (fun p => p.2.count)).sum
        = (g0.upiAccounts.map (fun p => p.2.count)).sum
          + (rs.filter (fun r => r.upi_account_name.isSome)).length)
      ∧ (((rs.foldl (fun g r => updPaymentGroup r g) g0).upiAccounts.map
          (fun p => p.2.amount)).sum
        = (g0.upiAccounts.map (fun p => p.2.amount)).sum
          + ((rs.filter (fun r => r.upi_account_name.isSome)).map getAmount).sum) := by
  intro rs
  induction rs with
  | nil =>
    intro g0 _
    constructor <;> simp
  | cons r t ih =>
    intro g0 hupi
    have hupir : pmKey r = "upi" := hupi r (List.mem_cons_self _ _)
    have hupit : ∀ q ∈ t, pmKey q = "upi" :=
      fun q hq => hupi q (List.mem_cons_of_mem _ hq)
    simp only [List.foldl_cons]
    obtain ⟨ihc, iha⟩ := ih (updPaymentGroup r g0) hupit
    cases hacct : r.upi_account_name with
    | none =>
      have he : (updPaymentGroup r g0).upiAccounts = g0.upiAccounts :=
        updPaymentGroup_upiAccounts_noacct r g0 hacct
      rw [he] at ihc iha
      have hf : (r.upi_account_name.isSome) = false := by rw [hacct]; rfl
      constructor
      · rw [ihc]
        simp only [List.filter_cons, hf, Bool.false_eq_true, if_false]
      · rw [iha]
        simp only [List.filter_cons, hf, Bool.false_eq_true, if_false]
    | some acct =>
      have he : (updPaymentGroup r g0).upiAccounts
          = addToGroups acct ⟨0, 0⟩ (bumpUpi (getAmount r)) g0.upiAccounts :=
        updPaymentGroup_upiAccounts_upi r g0 acct hupir hacct
      rw [he] at ihc iha
      have ht : (r.upi_account_name.isSome) = true := by rw [hacct]; rfl
      constructor
      · rw [ihc, sum_map_addToGroups (fun a : UpiAcct => a.count) acct ⟨0, 0⟩
          (bumpUpi (getAmount r)) 1 (fun a => rfl) rfl]
        simp only [List.filter_cons, ht, if_true, List.length_cons]
        omega
      · rw [iha, sum_map_addToGroups (fun a : UpiAcct => a.amount) acct ⟨0, 0⟩
          (bumpUpi (getAmount r)) (getAmount r) (fun a => rfl) rfl]
        simp only [List.filter_cons, ht, if_true, List.map_cons, List.sum_cons]
        ring

theorem foldl_upd_upi_other :
    ∀ (rs : List LogRecord) (g0 : PaymentGroup), (∀ r ∈ rs, pmKey r ≠ "upi") →
      (rs.foldl (fun g r => updPaymentGroup r g) g0).upiAccounts = g0.upiAccounts := by
  intro rs
  induction rs with
  | nil => intro g0 _; rfl
  | cons r t ih =>
    intro g0 h
    simp only [List.foldl_cons]
    rw [ih _ (fun q hq => h q (List.mem_cons_of_mem _ hq)),
        updPaymentGroup_upiAccounts_other r g0 (h r (List.mem_cons_self _ _))]

/-- Record with an empty-string payment mode. -/
def cx7Logs : List LogRecord :=
  [ { created_at := .instVal 0, payment_mode := some "", Amount := some 5 } ]

/-- Claim C7 counterexample: a record whose payment mode is the empty string
is grouped under the key `""` (with label `""`), not under `"cash"` — the
`'Cash'` default applies only when the key is absent, not when the value is
empty. -/
theorem payment_default_counterexample :
    (payment_mode_breakdown cx7Logs).map Prod.fst = [""]
    ∧ (analyze_data 0 cx7Logs []).paymentModeBreakdown.map PaymentGroup.mode = [""]
    ∧ ("" : String) ≠ "cash" := by
  refine ⟨?_, ?_, by decide⟩
  · norm_num +decide [cx7Logs, payment_mode_breakdown, paymentStep, addToGroups, bumpFirst,
      updPaymentGroup, newPaymentGroup, pmKey, pmMode, strLower, getAmount, List.lookup]
  · show (paymentFinal ((cx7Logs.map getAmount).sum) (payment_mode_breakdown cx7Logs)).map
        PaymentGroup.mode = [""]
    norm_num +decide [cx7Logs, payment_mode_breakdown, paymentStep, addToGroups, bumpFirst,
      updPaymentGroup, newPaymentGroup, pmKey, pmMode, strLower, getAmount, paymentFinal,
      List.lookup]

/-- Claim C7 as amended: `analyze_data` groups records by lower-cased payment
mode, defaulting the key to `"cash"` only when the record's payment mode is
absent (an empty-string mode keeps `""` as its key); each payment group's
value is the fold of the per-record update over exactly the records carrying
its key, so its label keeps the original case of the first record seen;
services group by `serviceType` and vehicles by `vehicleType`, each
defaulting to `"Unknown"` when absent; and the nested per-UPI-account
tallies accumulate exactly over the records whose normalized key is
`"upi"` and which carry a (truthy) `upiAccountName` — every non-`"upi"`
group's nested map stays empty. -/
theorem grouping_amended (logs : List LogRecord) (k : String) :
    (∀ r : LogRecord, r.payment_mode = none → pmMode r = "Cash" ∧ pmKey r = "cash")
    ∧ (∀ (r : LogRecord) (s : String), r.payment_mode = some s → pmKey r = strLower s)
    ∧ (payment_mode_breakdown logs).lookup k
        = groupFold (fun r => newPaymentGroup (pmMode r)) updPaymentGroup
            (logs.filter fun r => pmKey r == k)
    ∧ (∀ g, (payment_mode_breakdown logs).lookup k = some g →
        ∃ r0 rest, logs.filter (fun r => pmKey r == k) = r0 :: rest ∧ g.mode = pmMode r0)
    ∧ (∀ r : LogRecord, r.service = none → svcKey r = "Unknown")
    ∧ (service_breakdown logs).lookup k
        = groupFold (fun r => newServiceGroup (svcKey r)) updServiceGroup
            (logs.filter fun r => svcKey r == k)
    ∧ (∀ r : LogRecord, r.vehicle_type = none → vehKey r = "Unknown")
    ∧ (vehicle_distribution logs).lookup k
        = groupFold (fun r => newVehicleGroup (vehKey r)) updVehicleGroup
            (logs.filter fun r => vehKey r == k)
    ∧ (∀ g, (payment_mode_breakdown logs).lookup k = some g → k ≠ "upi" →
        g.upiAccounts = [])
    ∧ (∀ g, (payment_mode_breakdown logs).lookup "upi" = some g →
        (g.upiAccounts.map (fun p => p.2.count)).sum
            = ((logs.filter (fun r => pmKey r == "upi")).filter
                (fun r => r.upi_account_name.isSome)).length
        ∧ (g.upiAccounts.map (fun p => p.2.amount)).sum
            = (((logs.filter (fun r => pmKey r == "upi")).filter
                (fun r => r.upi_account_name.isSome)).map getAmount).sum) := by
  refine ⟨?_, ?_, payment_lookup_groupFold logs k, ?_,
    fun r h => by simp [svcKey, h], service_lookup_groupFold logs k,
    fun r h => by simp [vehKey, h], vehicle_lookup_groupFold logs k, ?_, ?_⟩
  · intro r h
    have hm : pmMode r = "Cash" := by simp [pmMode, h]
    refine ⟨hm, ?_⟩
    show strLower (pmMode r) = "cash"
    rw [hm]
    decide
  · intro r s h
    simp [pmKey, pmMode, h]
  · intro g hg
    rw [payment_lookup_groupFold] at hg
    cases hfil : logs.filter (fun r => pmKey r == k) with
    | nil =>
      rw [hfil] at hg
      cases hg
    | cons r0 rest =>
      rw [hfil] at hg
      have hgx := (Option.some.inj hg).symm
      refine ⟨r0, rest, rfl, ?_⟩
      rw [hgx, foldl_upd_mode, updPaymentGroup_mode]
      rfl
  · intro g hg hk
    rw [payment_lookup_groupFold] at hg
    cases hfil : logs.filter (fun r => pmKey r == k) with
    | nil =>
      rw [hfil] at hg
      cases hg
    | cons r0 rest =>
      rw [hfil] at hg
      have hgx := (Option.some.inj hg).symm
      have hmem : ∀ r ∈ r0 :: rest, pmKey r ≠ "upi" := by
        intro r hr
        have : r ∈ logs.filter (fun q => pmKey q == k) := by
          rw [hfil]
          exact hr
        have := (List.mem_filter.mp this).2
        rw [beq_iff_eq] at this
        rw [this]
        exact hk
      rw [hgx, foldl_upd_upi_other rest _
          (fun q hq => hmem q (List.mem_cons_of_mem _ hq)),
          updPaymentGroup_upiAccounts_other r0 _ (hmem r0 (List.mem_cons_self _ _))]
      rfl
  · intro g hg
    rw [payment_lookup_groupFold] at hg
    cases hfil : logs.filter (fun r => pmKey r == "upi") with
    | nil =>
      rw [hfil] at hg
      cases hg
    | cons r0 rest =>
      rw [hfil] at hg
      have hgx := (Option.some.inj hg).symm
      have hmem : ∀ r ∈ r0 :: rest, pmKey r = "upi" := by
        intro r hr
        have : r ∈ logs.filter (fun q => pmKey q == "upi") := by
          rw [hfil]
          exact hr
        have := (List.mem_filter.mp this).2
        rwa [beq_iff_eq] at this
      have hfold := foldl_upd_upi_sums (r0 :: rest) (newPaymentGroup (pmMode r0)) hmem
      constructor
      · rw [hgx]
        have := hfold.1
        simp only [List.foldl_cons] at this
        rw [this]
        simp [newPaymentGroup]
      · rw [hgx]
        have := hfold.2
        simp only [List.foldl_cons] at this
        rw [this]
        simp [newPaymentGroup]

/-- Witness for `grouping_amended`: a record with absent payment mode gets
key `"cash"` and label `"Cash"`; its group's label is the first record's
original-case mode. -/
theorem grouping_amended_witness :
    pmMode { created_at := CreatedAt.empty } = "Cash"
    ∧ pmKey { created_at := CreatedAt.empty } = "cash"
    ∧ ∃ r0 rest,
        [({ created_at := CreatedAt.empty } : LogRecord)].filter
            (fun r => pmKey r == "cash") = r0 :: rest
        ∧ ({ mode := "Cash", displayName := "Cash", count := 1, transactions := 1,
             revenue := 0, percentage := 0, upiAccounts := [] } : PaymentGroup).mode
          = pmMode r0 := by
  have h1 := (grouping_amended [{ created_at := CreatedAt.empty }] "cash").1
    { created_at := CreatedAt.empty } rfl
  refine ⟨h1.1, h1.2, ?_⟩
  apply (grouping_amended [{ created_at := CreatedAt.empty }] "cash").2.2.2.1
  rw [payment_lookup_groupFold]
  show groupFold _ _ ([({ created_at := CreatedAt.empty } : LogRecord)].filter
      (fun r => pmKey r == "cash")) = _
  norm_num +decide [pmKey, pmMode, strLower, groupFold, updPaymentGroup,
    newPaymentGroup, getAmount]

/-! ## No-data routing and owner isolation (claims C3, C4) -/

/-- Claim C3: for an owner with an email address and a nonempty resolved
location list, the no-data notification branch runs iff every one of the
owner's assigned locations yields zero fetched records; if any location
yields at least one record — regardless of its amount, even 0 — the owner
takes the full report branch instead. -/
theorem no_data_path_iff (locations : List Location) (owner : OwnerModel)
    (env : OwnerEnv) (e : String) (he : owner.email = some e)
    (hl : get_owner_locations owner locations ≠ []) :
    (ownerPath locations owner env = OwnerPath.noData ↔
      ∀ l ∈ get_owner_locations owner locations, fetchedLogs env l = [])
    ∧ ((∃ l ∈ get_owner_locations owner locations, 0 < (fetchedLogs env l).length) →
        ownerPath locations owner env = OwnerPath.withData) := by
  have hne : ¬((get_owner_locations owner locations).isEmpty = true) := by
    rw [List.isEmpty_iff]
    exact hl
  unfold ownerPath
  rw [he]
  simp only [if_neg hne]
  constructor
  · by_cases hd : has_any_data env (get_owner_locations owner locations)
    · rw [if_pos hd]
      constructor
      · intro habs
        cases habs
      · intro hall
        exfalso
        unfold has_any_data at hd
        obtain ⟨l, hlm, hpos⟩ := List.any_eq_true.mp hd
        rw [hall l hlm] at hpos
        exact absurd (of_decide_eq_true hpos) (by norm_num)
    · rw [if_neg hd]
      constructor
      · intro _ l hlm
        unfold has_any_data at hd
        have := fun h => hd (List.any_eq_true.mpr ⟨l, hlm, h⟩)
        have hz : ¬(0 < (fetchedLogs env l).length) := fun h => this (decide_eq_true h)
        exact List.length_eq_zero.mp (Nat.eq_zero_of_not_pos hz)
      · intro _
        rfl
  · intro ⟨l, hlm, hpos⟩
    have hd : has_any_data env (get_owner_locations owner locations) = true :=
      List.any_eq_true.mpr ⟨l, hlm, decide_eq_true hpos⟩
    rw [if_pos hd]

/-- One-location environment whose only record has amount 0, and whose
sends succeed. -/
def wEnvZero : OwnerEnv :=
  { fetch := fun _ => FetchResult.ok [{ created_at := CreatedAt.empty, Amount := some 0 }],
    sendNoData := SendResult.ok, sendReport := SendResult.ok }

def wOwner : OwnerModel :=
  { id := "o1", email := some "o@x", assigned_location := Assigned.list ["L1"] }

def wLocs : List Location := [{ id := "L1", name := "Loc" }]

/-- Witness for `no_data_path_iff`: an owner whose single location returns
one amount-0 record takes the full report branch, not the no-data branch. -/
theorem no_data_path_iff_witness :
    ownerPath wLocs wOwner wEnvZero = OwnerPath.withData := by
  apply (no_data_path_iff wLocs wOwner wEnvZero "o@x" rfl (by decide)).2
  exact ⟨"L1", by decide, by norm_num [wEnvZero, fetchedLogs]⟩

/-- Claim C4: in a run over N resolved owners where owner k reaches the
report send and the send raises message `m`, the exception is caught and
owner k's outcome is `failed m`; the run still produces exactly one outcome
per owner (N outcomes, `totalOwners` N); every other owner's outcome is its
own processing result, unchanged if owner k is replaced by anything else;
and the run's overall response still reports `success := true`. -/
theorem owner_isolation (locations : List Location)
    (owners : List (OwnerModel × OwnerEnv)) (k : Nat) (p : OwnerModel × OwnerEnv)
    (hk : owners[k]? = some p) (m : String)
    (hpath : ownerPath locations p.1 p.2 = OwnerPath.withData)
    (hsend : p.2.sendReport = SendResult.raised m) :
    (send_reports locations owners).results.length = owners.length
    ∧ (send_reports locations owners).totalOwners = owners.length
    ∧ (send_reports locations owners).results[k]? = some (Outcome.failed m)
    ∧ (∀ j, j ≠ k →
        (send_reports locations owners).results[j]?
          = (owners[j]?).map (fun q => processOwner locations q.1 q.2))
    ∧ (∀ (q : OwnerModel × OwnerEnv) (j : Nat), j ≠ k →
        (send_reports locations (owners.set k q)).results[j]?
          = (send_reports locations owners).results[j]?)
    ∧ (send_reports locations owners).success = true := by
  have hres : (send_reports locations owners).results
      = owners.map (fun q => processOwner locations q.1 q.2) := rfl
  have hfail : processOwner locations p.1 p.2 = Outcome.failed m := by
    unfold processOwner
    rw [hpath, hsend]
  refine ⟨?_, rfl, ?_, ?_, ?_, rfl⟩
  · rw [hres, List.length_map]
  · rw [hres, List.getElem?_map, hk]
    simp [hfail]
  · intro j _
    rw [hres, List.getElem?_map]
  · intro q j hj
    have h2 : (send_reports locations (owners.set k q)).results
        = (owners.set k q).map (fun x => processOwner locations x.1 x.2) := rfl
    rw [hres, h2, List.getElem?_map, List.getElem?_map, List.getElem?_set_ne (Ne.symm hj)]

def wEnvFail : OwnerEnv :=
  { fetch := fun _ => FetchResult.ok [wLog],
    sendNoData := SendResult.ok, sendReport := SendResult.raised "boom" }

def wOwners : List (OwnerModel × OwnerEnv) :=
  [ (wOwner, wEnvFail),
    ({ id := "o2", email := none, assigned_location := Assigned.absent },
     { fetch := fun _ => FetchResult.err, sendNoData := SendResult.ok,
       sendReport := SendResult.ok }) ]

/-- Witness for `owner_isolation`: two owners, the first one's send raises
"boom" — the run yields two outcomes, `failed "boom"` for the first, and
still responds with success. -/
theorem owner_isolation_witness :
    (send_reports wLocs wOwners).results.length = 2
    ∧ (send_reports wLocs wOwners).results[0]? = some (Outcome.failed "boom")
    ∧ (send_reports wLocs wOwners).success = true := by
  have h := owner_isolation wLocs wOwners 0 (wOwner, wEnvFail) rfl "boom" (by decide) rfl
  exact ⟨h.1, h.2.2.1, h.2.2.2.2.2⟩
